import Mathlib

/-!
Verification of the noters repository: a shallow embedding of
src/crypto.rs, src/db.rs, src/error.rs and src/note.rs, followed by
theorems settling the specification's claims.

Strings are modelled as lists of Unicode scalar values (`List Nat`),
byte sequences as lists of naturals below 256.  The external
collaborators of the code (the base64 crate's STANDARD engine and the
aes_gcm crate's AES-256-GCM cipher) are embedded as follows: base64 is
implemented faithfully (canonical padding, trailing bits rejected, as
the STANDARD engine is configured); the AEAD cipher is an ideal
authenticated cipher — a deterministic model in which decryption with a
given key and nonce succeeds exactly on the encryptions performed with
that key and nonce, and any local modification of a ciphertext is
rejected.  The tamper-rejection property of AES-GCM is probabilistic,
so an ideal-cipher model is the standard way to state it exactly.
-/

namespace Noters

/-! ## Base64 (standard alphabet, canonical padding)

Embedding of the base64 crate's `general_purpose::STANDARD` engine used
by src/crypto.rs: padded encoding; decoding requires canonical padding
and zero trailing bits.  Text is a list of ASCII codes. -/

/-- Value of a base64 alphabet character (A-Z a-z 0-9 + /), none for
any other character, in particular none for the pad character 61. -/
def b64Val (c : Nat) : Option Nat :=
  if 65 ≤ c ∧ c ≤ 90 then some (c - 65)
  else if 97 ≤ c ∧ c ≤ 122 then some (c - 71)
  else if 48 ≤ c ∧ c ≤ 57 then some (c + 4)
  else if c = 43 then some 62
  else if c = 47 then some 63
  else none

/-- Base64 alphabet character for a 6-bit value. -/
def b64Chr (v : Nat) : Nat :=
  if v < 26 then v + 65
  else if v < 52 then v + 71
  else if v < 62 then v - 4
  else if v = 62 then 43 else 47

/-- Base64 encoding of a byte sequence, with `=` (61) padding. -/
def b64Encode : List Nat → List Nat
  | b0 :: b1 :: b2 :: rest =>
      b64Chr (b0 / 4) :: b64Chr (b0 % 4 * 16 + b1 / 16) ::
      b64Chr (b1 % 16 * 4 + b2 / 64) :: b64Chr (b2 % 64) :: b64Encode rest
  | [b0, b1] => [b64Chr (b0 / 4), b64Chr (b0 % 4 * 16 + b1 / 16), b64Chr (b1 % 16 * 4), 61]
  | [b0] => [b64Chr (b0 / 4), b64Chr (b0 % 4 * 16), 61, 61]
  | [] => []

/-- Strict base64 decoding: length must be a multiple of four, padding
must be canonical and final, discarded trailing bits must be zero
(`decode_allow_trailing_bits` is false in the STANDARD engine). -/
def b64Decode : List Nat → Option (List Nat)
  | c0 :: c1 :: c2 :: c3 :: rest =>
    match b64Val c0, b64Val c1 with
    | some v0, some v1 =>
      if c2 = 61 then
        if c3 = 61 ∧ rest = [] ∧ v1 % 16 = 0 then some [v0 * 4 + v1 / 16] else none
      else
        match b64Val c2 with
        | some v2 =>
          if c3 = 61 then
            if rest = [] ∧ v2 % 4 = 0 then
              some [v0 * 4 + v1 / 16, v1 % 16 * 16 + v2 / 4]
            else none
          else
            match b64Val c3 with
            | some v3 =>
              (b64Decode rest).map
                (fun ds => (v0 * 4 + v1 / 16) :: (v1 % 16 * 16 + v2 / 4) :: (v2 % 4 * 64 + v3) :: ds)
            | none => none
        | none => none
    | _, _ => none
  | [] => some []
  | _ => none

/-- A byte sequence: every element is below 256. -/
def Bytes (l : List Nat) : Prop := ∀ b ∈ l, b < 256

instance : DecidablePred Bytes := fun l => List.decidableBAll _ l

/-! ## Errors (src/error.rs) and strings -/

/-- The scalar values of a Lean string literal, used to embed the Rust
string literals of the source. -/
def str (s : String) : List Nat := s.data.map Char.toNat

/-- src/error.rs `NoterError`.  The `Export` variant is used by
src/note.rs (`NoterError::ExportError`); its declaration is missing from
src/src/error.rs as packaged, and is modelled from the spec, whose error
taxonomy names ExportFailure as the per-note export failure.  Foreign
errors are carried as their display strings, as in the source. -/
inductive NoterError where
  | Io (msg : List Nat)
  | Database (msg : List Nat)
  | Config (msg : List Nat)
  | Encryption (msg : List Nat)
  | InvalidTitle (msg : List Nat)
  | NoteNotFound (id : Nat)
  | HomeDirNotFound
  | EditorNotFound
  | EditorError (msg : List Nat)
  | ExportError (msg : List Nat)
  | InvalidInput (msg : List Nat)
deriving DecidableEq

/-! ## Ideal authenticated cipher (model of the aes_gcm collaborator)

src/crypto.rs holds an `Aes256Gcm` cipher from the aes_gcm crate, an
external collaborator.  It is modelled as an ideal authenticated cipher:
the ciphertext binds plaintext, nonce and key, decryption under the same
key and nonce recovers the plaintext, and every other ciphertext is
rejected.  This idealises the authentication tag — for the real cipher
the rejection of modified ciphertexts holds only with overwhelming
probability, so the functional properties claimed of it are exactly the
ideal ones.  The key is the cipher's key material, held abstractly (the
SHA-256 derivation in `Crypto::new` maps the passphrase to it). -/

/-- Ideal authenticated encryption of `data` under `key` and `nonce`. -/
def aeadEncrypt (key : Nat) (nonce data : List Nat) : List Nat :=
  data ++ nonce ++ data ++ [key % 256]

/-- Ideal authenticated decryption: accepts exactly the ciphertexts
produced by `aeadEncrypt` with the same key and nonce. -/
def aeadDecrypt (key : Nat) (nonce ct : List Nat) : Option (List Nat) :=
  if ct = ct.take ((ct.length - (nonce.length + 1)) / 2) ++ nonce ++
      ct.take ((ct.length - (nonce.length + 1)) / 2) ++ [key % 256]
  then some (ct.take ((ct.length - (nonce.length + 1)) / 2)) else none

/-! ## Crypto (src/crypto.rs) -/

/-- src/crypto.rs `Crypto::encrypt`: draw a fresh random twelve-byte
nonce (the RNG is an external collaborator, so the nonce is threaded as a
parameter), encrypt, prepend the nonce, base64-encode.  The ideal cipher
cannot fail, so the `Ok` branch is the result. -/
def Crypto.encrypt (key : Nat) (nonce data : List Nat) : List Nat :=
  b64Encode (nonce ++ aeadEncrypt key nonce data)

/-- src/crypto.rs `Crypto::decrypt`: base64-decode (error on invalid
text), reject decoded data shorter than the twelve-byte nonce, split off
the nonce, decrypt (error on authentication failure). -/
def Crypto.decrypt (key : Nat) (data : List Nat) : Except NoterError (List Nat) :=
  match b64Decode data with
  | none => .error (.Encryption (str "invalid base64"))
  | some decoded =>
    if decoded.length < 12 then .error (.Encryption (str "Invalid encrypted data"))
    else
      match aeadDecrypt key (decoded.take 12) (decoded.drop 12) with
      | some pt => .ok pt
      | none => .error (.Encryption (str "aead failure"))

/-- Whether a result is an error. -/
def isErr {α : Type} : Except NoterError α → Bool
  | .error _ => true
  | .ok _ => false

/-- A fixed twelve-byte nonce used by the concrete witnesses. -/
def nonce0 : List Nat := [0, 1, 2, 3, 4, 5, 6, 7, 8, 9, 10, 11]

/-- A second twelve-byte nonce used by the concrete witnesses. -/
def nonce1 : List Nat := [1, 1, 2, 3, 4, 5, 6, 7, 8, 9, 10, 11]

/-! ## UTF-8

Rust strings are UTF-8 byte sequences; the model carries them as lists of
Unicode scalar values and crosses the byte boundary (`as_bytes`,
`String::from_utf8`) with an exact UTF-8 codec: encoding of scalar
values, and strict decoding rejecting overlong forms, surrogates and
out-of-range values, as `String::from_utf8` does. -/

/-- UTF-8 encoding of one Unicode scalar value. -/
def utf8EncodeChar (c : Nat) : List Nat :=
  if c < 128 then [c]
  else if c < 2048 then [192 + c / 64, 128 + c % 64]
  else if c < 65536 then [224 + c / 4096, 128 + c / 64 % 64, 128 + c % 64]
  else [240 + c / 262144, 128 + c / 4096 % 64, 128 + c / 64 % 64, 128 + c % 64]

/-- UTF-8 encoding of a string of scalar values (`str::as_bytes`). -/
def utf8Encode (s : List Nat) : List Nat := (s.map utf8EncodeChar).join

/-- One step of strict UTF-8 decoding (`String::from_utf8`): reads one
scalar value, rejecting stray continuation bytes, overlong forms,
surrogates and values beyond U+10FFFF; returns the value and the rest. -/
def utf8Step : List Nat → Option (Nat × List Nat)
  | [] => none
  | b :: rest =>
    if b < 128 then some (b, rest)
    else if b < 194 then none
    else if b < 224 then
      match rest with
      | b1 :: rest2 =>
        if 128 ≤ b1 ∧ b1 < 192 then some ((b - 192) * 64 + (b1 - 128), rest2) else none
      | [] => none
    else if b < 240 then
      match rest with
      | b1 :: b2 :: rest2 =>
        if 128 ≤ b1 ∧ b1 < 192 ∧ 128 ≤ b2 ∧ b2 < 192 then
          if 2048 ≤ (b - 224) * 4096 + (b1 - 128) * 64 + (b2 - 128) ∧
              ¬(55296 ≤ (b - 224) * 4096 + (b1 - 128) * 64 + (b2 - 128) ∧
                (b - 224) * 4096 + (b1 - 128) * 64 + (b2 - 128) ≤ 57343) then
            some ((b - 224) * 4096 + (b1 - 128) * 64 + (b2 - 128), rest2)
          else none
        else none
      | _ => none
    else if b < 245 then
      match rest with
      | b1 :: b2 :: b3 :: rest2 =>
        if 128 ≤ b1 ∧ b1 < 192 ∧ 128 ≤ b2 ∧ b2 < 192 ∧ 128 ≤ b3 ∧ b3 < 192 then
          if 65536 ≤ (b - 240) * 262144 + (b1 - 128) * 4096 + (b2 - 128) * 64 + (b3 - 128) ∧
              (b - 240) * 262144 + (b1 - 128) * 4096 + (b2 - 128) * 64 + (b3 - 128) ≤ 1114111
          then
            some ((b - 240) * 262144 + (b1 - 128) * 4096 + (b2 - 128) * 64 + (b3 - 128), rest2)
          else none
        else none
      | _ => none
    else none

/-- The decoding loop, with fuel bounding the number of scalar values
(one byte of input per value is ample). -/
def utf8DecodeGo : Nat → List Nat → Option (List Nat)
  | _, [] => some []
  | 0, _ :: _ => none
  | f + 1, b :: rest =>
    match utf8Step (b :: rest) with
    | some (c, r2) => (utf8DecodeGo f r2).map (fun cs => c :: cs)
    | none => none

/-- Strict UTF-8 decoding of a byte sequence to its scalar values
(`String::from_utf8`). -/
def utf8Decode (l : List Nat) : Option (List Nat) := utf8DecodeGo l.length l

/-- A string of Unicode scalar values: below U+110000 and not a
surrogate. -/
def Scalars (l : List Nat) : Prop := ∀ c ∈ l, c < 1114112 ∧ ¬(55296 ≤ c ∧ c ≤ 57343)

instance : DecidablePred Scalars := fun l => List.decidableBAll _ l

/-! ## Strings and error display -/

/-- Decimal rendering of a natural number (the display of an id). -/
def natDisplay (n : Nat) : List Nat := (Nat.toDigits 10 n).map Char.toNat

/-- The display string of an error (src/error.rs `thiserror` messages).
The strings carried by foreign errors are abbreviated placeholders; no
claim inspects message contents. -/
def NoterError.display : NoterError → List Nat
  | .Io m => str "IO error: " ++ m
  | .Database m => str "Database error: " ++ m
  | .Config m => str "Configuration error: " ++ m
  | .Encryption m => str "Encryption error: " ++ m
  | .InvalidTitle m => str "Invalid title: " ++ m
  | .NoteNotFound id => str "Note not found: " ++ natDisplay id
  | .HomeDirNotFound => str "Home directory not found"
  | .EditorNotFound => str "Editor not found"
  | .EditorError m => str "Editor error: " ++ m
  | .ExportError m => str "Export error: " ++ m
  | .InvalidInput m => str "Invalid input: " ++ m

/-! ## Character classes -/

/-- The Unicode White_Space property, as tested by `char::is_whitespace`
in `str::trim` — the full list of the twenty-five white-space scalar
values. -/
def isRustWhitespace (c : Nat) : Bool :=
  c == 9 || c == 10 || c == 11 || c == 12 || c == 13 || c == 32 ||
  c == 133 || c == 160 || c == 5760 || (8192 ≤ c && c ≤ 8202) ||
  c == 8232 || c == 8233 || c == 8239 || c == 8287 || c == 12288

/-- `char::is_alphanumeric`, restricted to the ASCII range of the
Unicode tables (the titles the claims evaluate are ASCII; elsewhere only
the determinism of sanitisation is used). -/
def isAlphanumeric (c : Nat) : Bool :=
  (48 ≤ c && c ≤ 57) || (65 ≤ c && c ≤ 90) || (97 ≤ c && c ≤ 122)

/-! ## Index (src/db.rs)

The relational store is modelled as the list of rows of the `notes`
table plus the next rowid.  Timestamps are opaque naturals
(`Local::now().to_rfc3339()` is injected as a parameter, as the spec
directs for the wall clock).  `ORDER BY created_at DESC` is not
modelled: rows keep insertion order, and no claim depends on the order
of a returned list. -/

/-- A row of the `notes` table (src/db.rs `NoteRecord`). -/
structure NoteRecord where
  id : Nat
  title : List Nat
  filename : List Nat
  createdAt : Nat
  updatedAt : Nat
deriving DecidableEq

/-- The `notes` table with its rowid counter. -/
structure Database where
  rows : List NoteRecord
  nextId : Nat
deriving DecidableEq

/-- src/db.rs `Database::insert_note`: fails on the UNIQUE constraint on
`filename`, otherwise appends the row, `created_at = updated_at = now`,
and returns the fresh rowid. -/
def Database.insert_note (db : Database) (title filename : List Nat) (now : Nat) :
    Except NoterError (Nat × Database) :=
  if db.rows.any (fun r => r.filename == filename) then
    .error (.Database (str "UNIQUE constraint failed: notes.filename"))
  else
    .ok (db.nextId,
      ⟨db.rows ++ [⟨db.nextId, title, filename, now, now⟩], db.nextId + 1⟩)

/-- src/db.rs `Database::get_all_notes`. -/
def Database.get_all_notes (db : Database) : List NoteRecord := db.rows

/-- src/db.rs `Database::get_note`: query the rows with the given id and
pop the last one (ids are unique under the primary key, so at most one
row matches). -/
def Database.get_note (db : Database) (id : Nat) : Option NoteRecord :=
  (db.rows.filter (fun r => r.id == id)).getLast?

/-- ASCII case folding of SQLite's LIKE: upper-case ASCII letters fold
to lower case, everything else is itself. -/
def likeFold (c : Nat) : Nat := if 65 ≤ c ∧ c ≤ 90 then c + 32 else c

/-- The LIKE loop, with fuel bounding the recursion (pattern length plus
text length is ample): `%` (37) matches any sequence, `_` (95) matches
one character, other characters match up to ASCII case folding. -/
def likeMatchGo : Nat → List Nat → List Nat → Bool
  | _, [], [] => true
  | _, [], _ :: _ => false
  | 0, _ :: _, _ => false
  | f + 1, p :: ps, [] => (p == 37) && likeMatchGo f ps []
  | f + 1, p :: ps, c :: ts =>
    if p = 37 then likeMatchGo f ps (c :: ts) || likeMatchGo f (p :: ps) ts
    else if p = 95 then likeMatchGo f ps ts
    else (likeFold p == likeFold c) && likeMatchGo f ps ts

/-- SQLite's LIKE operator on a pattern and a text.  This is the
semantics of the `LIKE ?1` filter in src/db.rs `Database::search_notes`:
SQLite's default LIKE is case-insensitive for ASCII, and `%` and `_`
inside the bound query act as wildcards since the query is interpolated
into the pattern. -/
def likeMatch (pat t : List Nat) : Bool := likeMatchGo (pat.length + t.length) pat t

/-- src/db.rs `Database::search_notes`: rows whose title or filename
matches `LIKE '%query%'`. -/
def Database.search_notes (db : Database) (q : List Nat) : List NoteRecord :=
  db.rows.filter
    (fun r => likeMatch (37 :: (q ++ [37])) r.title || likeMatch (37 :: (q ++ [37])) r.filename)

/-- src/db.rs `Database::delete_note`: remove the row and report whether
any row was affected. -/
def Database.delete_note (db : Database) (id : Nat) : Bool × Database :=
  (db.rows.any (fun r => r.id == id),
   { db with rows := db.rows.filter (fun r => r.id != id) })

/-! ## Blob store

The filesystem is an association list from paths to byte contents, with
at most one entry per path.  Paths are strings of scalar values;
directories are not modelled (no claim concerns them). -/

/-- The blob store: a list of (path, contents) files. -/
abbrev Fs := List (List Nat × List Nat)

/-- `fs::read` / `fs::read_to_string`: the contents at a path. -/
def fsRead : Fs → List Nat → Option (List Nat)
  | [], _ => none
  | e :: fs, path => if e.1 = path then some e.2 else fsRead fs path

/-- `fs::write`: create or overwrite the file at a path. -/
def fsWrite : Fs → List Nat → List Nat → Fs
  | [], path, content => [(path, content)]
  | e :: fs, path, content =>
    if e.1 = path then (path, content) :: fs else e :: fsWrite fs path content

/-- `fs::remove_file`. -/
def fsRemove : Fs → List Nat → Fs
  | [], _ => []
  | e :: fs, path => if e.1 = path then fsRemove fs path else e :: fsRemove fs path

/-- `Path::exists`. -/
def fsExists (fs : Fs) (path : List Nat) : Bool :=
  (fsRead fs path).isSome

/-- `Path::join` for a directory and a file name. -/
def pathJoin (dir name : List Nat) : List Nat := dir ++ [47] ++ name

/-- Replace the extension of a bare file name (everything from the last
dot on, unless the only dot leads the name), as `Path::with_extension`
does on the file name. -/
def withExtName (name ext : List Nat) : List Nat :=
  (match name.reverse.findIdx? (fun c => c == 46) with
   | none => name
   | some i =>
     if name.length - 1 - i = 0 then name else name.take (name.length - 1 - i)) ++
  [46] ++ ext

/-- `Path::with_extension`: replace the extension of the last path
component. -/
def withExtension (path ext : List Nat) : List Nat :=
  match path.reverse.findIdx? (fun c => c == 47) with
  | none => withExtName path ext
  | some i =>
    path.take (path.length - i) ++ withExtName (path.drop (path.length - i)) ext

/-! ## Orchestrator (src/note.rs)

`NotesManager` holds the configuration, the index and the derived key;
its mutable world is the index plus the blob store, carried as an
explicit state.  External inputs — the wall clock, the RNG nonce, the
EDITOR environment variable, the interactive editor run and the bytes it
leaves in the temp file — are threaded as parameters, as the spec
directs for time and for `runEditor`. -/

/-- The configuration consumed by src/note.rs.  `export_dir` is
optional, as src/note.rs consumes it (`as_ref().map(...)`); the
encryption key is carried as the derived cipher key. -/
structure Config where
  notesDir : List Nat
  defaultExtension : List Nat
  editor : Option (List Nat)
  encryptionKey : Nat
  exportDir : Option (List Nat)
deriving DecidableEq

/-- The mutable world of the orchestrator: index and blob store. -/
structure St where
  db : Database
  fs : Fs
deriving DecidableEq

/-- The injected wall clock of one operation: the two renderings used by
`create_note` and the value stored in the index rows. -/
structure Clock where
  fileStamp : List Nat
  contentStamp : List Nat
  epoch : Nat

/-- `title.trim().is_empty()`: the title is all white space. -/
def trimIsEmpty (title : List Nat) : Bool := title.all isRustWhitespace

/-- src/note.rs `NotesManager::format_filename`:
`{timestamp}-{sanitised title}.{extension}`, where every character that
is neither alphanumeric nor a dash becomes a dash. -/
def format_filename (cfg : Config) (fileStamp title : List Nat) : List Nat :=
  fileStamp ++ [45] ++
    title.map (fun c => if ¬(isAlphanumeric c = true) ∧ c ≠ 45 then 45 else c) ++
    [46] ++ cfg.defaultExtension

/-- The header block `create_note` builds:
`---\ntitle: {title}\ndate: {now}\n---\n\n`. -/
def noteContent (title contentStamp : List Nat) : List Nat :=
  str "---\ntitle: " ++ title ++ str "\ndate: " ++ contentStamp ++ str "\n---\n\n"

/-- src/note.rs `NotesManager::create_note`: validate the title, compute
the filename, build the header content, encrypt it, write the blob, then
insert the index row.  The blob write precedes the index insert, and is
not undone if the insert fails. -/
def NotesManager.create_note (cfg : Config) (st : St) (title : List Nat)
    (now : Clock) (nonce : List Nat) : Except NoterError Unit × St :=
  if trimIsEmpty title then
    (.error (.InvalidTitle (str "Title cannot be empty")), st)
  else
    let filename := format_filename cfg now.fileStamp title
    let filePath := pathJoin cfg.notesDir filename
    let encrypted := Crypto.encrypt cfg.encryptionKey nonce
      (utf8Encode (noteContent title now.contentStamp))
    let fs2 := fsWrite st.fs filePath encrypted
    match st.db.insert_note title filename now.epoch with
    | .ok (_, db2) => (.ok (), { db := db2, fs := fs2 })
    | .error e => (.error e, { st with fs := fs2 })

/-- src/note.rs `NotesManager::read_note`: NotFound without a record, an
IO error without a blob file, re-wrapped Encryption errors from
decryption, and an Encryption error when the plaintext is not UTF-8
(`String::from_utf8` mapped into `NoterError::Encryption`). -/
def NotesManager.read_note (cfg : Config) (st : St) (id : Nat) :
    Except NoterError (List Nat) :=
  match st.db.get_note id with
  | none => .error (.NoteNotFound id)
  | some note =>
    match fsRead st.fs (pathJoin cfg.notesDir note.filename) with
    | none => .error (.Io (str "No such file or directory"))
    | some encrypted =>
      match Crypto.decrypt cfg.encryptionKey encrypted with
      | .error e => .error (.Encryption e.display)
      | .ok decrypted =>
        match utf8Decode decrypted with
        | some s => .ok s
        | none => .error (.Encryption (str "invalid utf-8"))

/-- src/note.rs `NotesManager::edit_note`.  The editor resolution
(configured editor, else the EDITOR environment variable), the editor
run (`none` a spawn failure, `some b` an exit with success flag `b`) and
the bytes the editor leaves in the temp file are injected.  On spawn
failure the temp file is left in place (the source propagates the error
before any cleanup); only the non-success exit branch removes it. -/
def NotesManager.edit_note (cfg : Config) (st : St) (id : Nat)
    (envEditor : Option (List Nat)) (editorOutcome : Option Bool)
    (edited : List Nat) (nonce : List Nat) : Except NoterError Unit × St :=
  match st.db.get_note id with
  | none => (.error (.NoteNotFound id), st)
  | some note =>
    let filePath := pathJoin cfg.notesDir note.filename
    match fsRead st.fs filePath with
    | none => (.error (.Io (str "No such file or directory")), st)
    | some encryptedContent =>
      match Crypto.decrypt cfg.encryptionKey encryptedContent with
      | .error e => (.error (.Encryption e.display), st)
      | .ok decryptedContent =>
        let tempPath := withExtension filePath (str "temp")
        let fs1 := fsWrite st.fs tempPath decryptedContent
        match cfg.editor.orElse (fun _ => envEditor) with
        | none => (.error .EditorNotFound, { st with fs := fs1 })
        | some _ =>
          match editorOutcome with
          | none =>
            (.error (.EditorError (str "spawn failure")), { st with fs := fs1 })
          | some exitOk =>
            if ¬(exitOk = true) then
              (.error (.EditorError (str "Editor exited with non-zero status")),
               { st with fs := fsRemove fs1 tempPath })
            else
              let fsE := fsWrite fs1 tempPath edited
              let encrypted := Crypto.encrypt cfg.encryptionKey nonce edited
              let fs2 := fsWrite fsE filePath encrypted
              (.ok (), { st with fs := fsRemove fs2 tempPath })

/-- src/note.rs `NotesManager::list_notes`. -/
def NotesManager.list_notes (st : St) : List NoteRecord :=
  st.db.get_all_notes

/-- src/note.rs `NotesManager::search_notes`. -/
def NotesManager.search_notes (st : St) (q : List Nat) : List NoteRecord :=
  st.db.search_notes q

/-- src/note.rs `NotesManager::delete_note`: false without a record;
otherwise remove the blob file if it exists (its absence is not an
error), then delete the index row, and return true. -/
def NotesManager.delete_note (cfg : Config) (st : St) (id : Nat) :
    Except NoterError Bool × St :=
  match st.db.get_note id with
  | some note =>
    let filePath := pathJoin cfg.notesDir note.filename
    let fs2 := if fsExists st.fs filePath then fsRemove st.fs filePath else st.fs
    let db2 := (st.db.delete_note id).2
    (.ok true, { db := db2, fs := fs2 })
  | none => (.ok false, st)

/-- src/note.rs `NotesManager::sanitize_filename`: keep alphanumerics,
dashes and underscores, replace everything else with a dash, trim dashes
at both ends, cap at 255 characters. -/
def sanitize_filename (filename : List Nat) : List Nat :=
  ((((filename.map
      (fun c => if isAlphanumeric c || c == 45 || c == 95 then c else 45)).dropWhile
        (fun c => c == 45)).reverse.dropWhile (fun c => c == 45)).reverse).take 255

/-- src/note.rs `NotesManager::export_note`: read and decrypt the note
(wrapping a failure as ExportError), then write the plaintext to the
export path. -/
def NotesManager.export_note (cfg : Config) (st : St) (id : Nat)
    (exportPath : List Nat) : Except NoterError Unit × St :=
  match NotesManager.read_note cfg st id with
  | .error e =>
    (.error (.ExportError (str "Failed to read note " ++ natDisplay id ++ str ": " ++
      e.display)), st)
  | .ok content => (.ok (), { st with fs := fsWrite st.fs exportPath (utf8Encode content) })

/-- The target directory of src/note.rs `export_notes`: the explicit
argument, else the configured export directory, else `notes_dir/exports`. -/
def resolveExportDir (cfg : Config) (exportDir : Option (List Nat)) : List Nat :=
  match exportDir with
  | some dir => dir
  | none =>
    match cfg.exportDir with
    | some p => p
    | none => pathJoin cfg.notesDir (str "exports")

/-- src/note.rs `NotesManager::export_notes`: nothing to do on an empty
index; otherwise resolve the target directory, attempt each note
independently, counting successes and logging failures, and return
`(successes, total)`. -/
def NotesManager.export_notes (cfg : Config) (st : St)
    (exportDir : Option (List Nat)) : Except NoterError (Nat × Nat) × St :=
  let notes := NotesManager.list_notes st
  let totalCount := notes.length
  if totalCount = 0 then (.ok (0, 0), st)
  else
    let targetDir := resolveExportDir cfg exportDir
    let result := notes.foldl
      (fun (acc : Nat × St) note =>
        let exportPath := pathJoin targetDir
          (sanitize_filename note.title ++ [46] ++ cfg.defaultExtension)
        match NotesManager.export_note cfg acc.2 note.id exportPath with
        | (.ok _, st2) => (acc.1 + 1, st2)
        | (.error _, st2) => (acc.1, st2))
      (0, st)
    (.ok (result.1, totalCount), result.2)

/-- Concrete fixtures used by the witnesses. -/
def cfg0 : Config := ⟨str "/notes", str "md", some (str "vi"), 7, some (str "/exports")⟩

def clock0 : Clock := ⟨str "20240101-120000", str "2024-01-01 12:00:00", 1704110400⟩

/-- A one-row store whose record carries the filename `create_note`
computes for the title "Report" at the fixture clock, with an existing
blob. -/
def stDup : St :=
  ⟨⟨[⟨1, str "Report", format_filename cfg0 clock0.fileStamp (str "Report"), 0, 0⟩], 2⟩,
   [(pathJoin cfg0.notesDir (format_filename cfg0 clock0.fileStamp (str "Report")),
     str "old envelope")]⟩

/-- A one-row store with its blob, used by the delete witness. -/
def stOne : St :=
  ⟨⟨[⟨1, str "t", str "f.md", 0, 0⟩], 2⟩,
   [(pathJoin cfg0.notesDir (str "f.md"), str "blob")]⟩

instance {a b : Type} [DecidableEq a] [DecidableEq b] : DecidableEq (Except a b) := fun x y =>
  match x, y with
  | .ok u, .ok v =>
    if h : u = v then isTrue (congrArg _ h) else isFalse (fun he => h (Except.ok.inj he))
  | .error u, .error v =>
    if h : u = v then isTrue (congrArg _ h) else isFalse (fun he => h (Except.error.inj he))
  | .ok _, .error _ => isFalse (fun he => Except.noConfusion he)
  | .error _, .ok _ => isFalse (fun he => Except.noConfusion he)

/-- Whether a result is a Validation error (the `InvalidTitle` or
`InvalidInput` variants, the spec taxonomy's Validation kind). -/
def isValidationErr {α : Type} : Except NoterError α → Bool
  | .error (.InvalidTitle _) => true
  | .error (.InvalidInput _) => true
  | _ => false

/-- A store whose single blob decrypts to the byte 255, which is not
valid UTF-8. -/
def stBad : St :=
  ⟨⟨[⟨1, str "t", str "f.md", 0, 0⟩], 2⟩,
   [(pathJoin cfg0.notesDir (str "f.md"), Crypto.encrypt 7 nonce0 [255])]⟩

/-- A store whose single blob decrypts to the text "hello". -/
def stEdit : St :=
  ⟨⟨[⟨1, str "t", str "f.md", 0, 0⟩], 2⟩,
   [(pathJoin cfg0.notesDir (str "f.md"),
     Crypto.encrypt 7 nonce0 (utf8Encode (str "hello")))]⟩

/-- A one-row store whose record is titled "Report". -/
def db1 : Database := ⟨[⟨1, str "Report", str "x.md", 0, 0⟩], 2⟩

/-- A two-note store: note 1 has a well-formed blob, note 2 a corrupted
blob (not valid base64). -/
def stExp : St :=
  ⟨⟨[⟨1, str "a", str "amd", 0, 0⟩, ⟨2, str "b", str "bmd", 0, 0⟩], 3⟩,
   [(pathJoin cfg0.notesDir (str "amd"),
     Crypto.encrypt 7 nonce0 (utf8Encode (str "hi"))),
    (pathJoin cfg0.notesDir (str "bmd"), [33])]⟩

theorem b64Val_b64Chr : ∀ v < 64, b64Val (b64Chr v) = some v := by decide

theorem b64Chr_ne_pad : ∀ v < 64, b64Chr v ≠ 61 := by decide

theorem b64Val_lt {c v : Nat} (h : b64Val c = some v) : v < 64 := by
  unfold b64Val at h
  split_ifs at h <;> simp only [Option.some.injEq, reduceCtorEq] at h <;> omega

theorem b64Chr_b64Val {c v : Nat} (h : b64Val c = some v) : b64Chr v = c := by
  unfold b64Val at h
  split_ifs at h <;> simp only [Option.some.injEq, reduceCtorEq] at h <;>
    (unfold b64Chr; split_ifs <;> omega)

theorem b64Val_ne_pad {c v : Nat} (h : b64Val c = some v) : c ≠ 61 := by
  unfold b64Val at h
  split_ifs at h <;> first | omega | exact absurd h (by simp)

/-- Round trip: strict decoding inverts encoding on byte sequences. -/
theorem b64Decode_b64Encode : ∀ d : List Nat, Bytes d → b64Decode (b64Encode d) = some d
  | b0 :: b1 :: b2 :: rest, h => by
    have hb0 : b0 < 256 := h b0 (by simp)
    have hb1 : b1 < 256 := h b1 (by simp)
    have hb2 : b2 < 256 := h b2 (by simp)
    have ih := b64Decode_b64Encode rest (fun b hb => h b (by simp [hb]))
    have e0 := b64Val_b64Chr (b0 / 4) (by omega)
    have e1 := b64Val_b64Chr (b0 % 4 * 16 + b1 / 16) (by omega)
    have e2 := b64Val_b64Chr (b1 % 16 * 4 + b2 / 64) (by omega)
    have e3 := b64Val_b64Chr (b2 % 64) (by omega)
    have n2 := b64Chr_ne_pad (b1 % 16 * 4 + b2 / 64) (by omega)
    have n3 := b64Chr_ne_pad (b2 % 64) (by omega)
    simp [b64Encode, b64Decode, e0, e1, e2, e3, n2, n3, ih] <;> omega
  | [b0, b1], h => by
    have hb0 : b0 < 256 := h b0 (by simp)
    have hb1 : b1 < 256 := h b1 (by simp)
    have e0 := b64Val_b64Chr (b0 / 4) (by omega)
    have e1 := b64Val_b64Chr (b0 % 4 * 16 + b1 / 16) (by omega)
    have e2 := b64Val_b64Chr (b1 % 16 * 4) (by omega)
    have n2 := b64Chr_ne_pad (b1 % 16 * 4) (by omega)
    have hz : b1 % 16 * 4 % 4 = 0 := by omega
    simp [b64Encode, b64Decode, e0, e1, e2, n2, hz] <;> omega
  | [b0], h => by
    have hb0 : b0 < 256 := h b0 (by simp)
    have e0 := b64Val_b64Chr (b0 / 4) (by omega)
    have e1 := b64Val_b64Chr (b0 % 4 * 16) (by omega)
    have hz : b0 % 4 * 16 % 16 = 0 := by omega
    simp [b64Encode, b64Decode, e0, e1, hz] <;> omega
  | [], _ => rfl

/-- Canonicality of strict decoding: a string that decodes is exactly the
encoding of its decoded bytes (the STANDARD engine accepts only canonical
padding and zero trailing bits, so decoding has a unique preimage). -/
theorem b64Encode_b64Decode : ∀ s d : List Nat, b64Decode s = some d → b64Encode d = s
  | [], d, h => by
    simp only [b64Decode, Option.some.injEq] at h
    subst h
    rfl
  | [_], d, h => by simp [b64Decode] at h
  | [_, _], d, h => by simp [b64Decode] at h
  | [_, _, _], d, h => by simp [b64Decode] at h
  | c0 :: c1 :: c2 :: c3 :: rest, d, h => by
    cases h0 : b64Val c0 with
    | none => simp [b64Decode, h0] at h
    | some v0 =>
    cases h1 : b64Val c1 with
    | none => simp [b64Decode, h0, h1] at h
    | some v1 =>
    have hv0 : b64Chr v0 = c0 := b64Chr_b64Val h0
    have hv1 : b64Chr v1 = c1 := b64Chr_b64Val h1
    have lv0 : v0 < 64 := b64Val_lt h0
    have lv1 : v1 < 64 := b64Val_lt h1
    by_cases hc2 : c2 = 61
    · simp only [b64Decode, h0, h1, if_pos hc2] at h
      split_ifs at h with hcond
      · obtain ⟨hc3, hrest, hz⟩ := hcond
        simp only [Option.some.injEq] at h
        subst h
        subst hc3
        subst hrest
        subst hc2
        have e1 : (v0 * 4 + v1 / 16) / 4 = v0 := by omega
        have e2 : (v0 * 4 + v1 / 16) % 4 * 16 = v1 := by omega
        simp only [b64Encode, e1, e2, hv0, hv1]
    · cases h2 : b64Val c2 with
      | none => simp [b64Decode, h0, h1, hc2, h2] at h
      | some v2 =>
      have hv2 : b64Chr v2 = c2 := b64Chr_b64Val h2
      have lv2 : v2 < 64 := b64Val_lt h2
      by_cases hc3 : c3 = 61
      · simp only [b64Decode, h0, h1, if_neg hc2, h2, if_pos hc3] at h
        split_ifs at h with hcond
        · obtain ⟨hrest, hz⟩ := hcond
          simp only [Option.some.injEq] at h
          subst h
          subst hrest
          subst hc3
          have e1 : (v0 * 4 + v1 / 16) / 4 = v0 := by omega
          have e2 : (v0 * 4 + v1 / 16) % 4 * 16 + (v1 % 16 * 16 + v2 / 4) / 16 = v1 := by
            omega
          have e3 : (v1 % 16 * 16 + v2 / 4) % 16 * 4 = v2 := by omega
          simp only [b64Encode, e1, e2, e3, hv0, hv1, hv2]
      · cases h3 : b64Val c3 with
        | none => simp [b64Decode, h0, h1, hc2, h2, hc3, h3] at h
        | some v3 =>
        have hv3 : b64Chr v3 = c3 := b64Chr_b64Val h3
        have lv3 : v3 < 64 := b64Val_lt h3
        simp only [b64Decode, h0, h1, if_neg hc2, h2, if_neg hc3, h3] at h
        cases hrest : b64Decode rest with
        | none => simp [hrest] at h
        | some ds =>
        have ih := b64Encode_b64Decode rest ds hrest
        simp only [hrest, Option.map_some', Option.some.injEq] at h
        subst h
        have e1 : (v0 * 4 + v1 / 16) / 4 = v0 := by omega
        have e2 : (v0 * 4 + v1 / 16) % 4 * 16 + (v1 % 16 * 16 + v2 / 4) / 16 = v1 := by
          omega
        have e3 : (v1 % 16 * 16 + v2 / 4) % 16 * 4 + (v2 % 4 * 64 + v3) / 64 = v2 := by
          omega
        have e4 : (v2 % 4 * 64 + v3) % 64 = v3 := by omega
        simp only [b64Encode, e1, e2, e3, e4, hv0, hv1, hv2, hv3, ih]

/-- Strict decoding is injective on strings that decode at all. -/
theorem b64Decode_inj {s s' d : List Nat} (h : b64Decode s = some d)
    (h' : b64Decode s' = some d) : s = s' := by
  rw [← b64Encode_b64Decode s d h, ← b64Encode_b64Decode s' d h']

/-- Characterisation of decoding a string of length at least four: the first
chunk is either a full data chunk followed by the decoded rest, or one of the
two canonical padding chunks closing the string. -/
theorem b64Decode_cons4 {c0 c1 c2 c3 : Nat} {rest d : List Nat}
    (h : b64Decode (c0 :: c1 :: c2 :: c3 :: rest) = some d) :
    (∃ v0 v1 v2 v3 dt, b64Val c0 = some v0 ∧ b64Val c1 = some v1 ∧
      b64Val c2 = some v2 ∧ b64Val c3 = some v3 ∧ b64Decode rest = some dt ∧
      d = (v0 * 4 + v1 / 16) :: (v1 % 16 * 16 + v2 / 4) :: (v2 % 4 * 64 + v3) :: dt) ∨
    (∃ v0 v1, b64Val c0 = some v0 ∧ b64Val c1 = some v1 ∧ c2 = 61 ∧ c3 = 61 ∧
      rest = [] ∧ v1 % 16 = 0 ∧ d = [v0 * 4 + v1 / 16]) ∨
    (∃ v0 v1 v2, b64Val c0 = some v0 ∧ b64Val c1 = some v1 ∧ b64Val c2 = some v2 ∧
      c3 = 61 ∧ rest = [] ∧ v2 % 4 = 0 ∧
      d = [v0 * 4 + v1 / 16, v1 % 16 * 16 + v2 / 4]) := by
  cases h0 : b64Val c0 with
  | none => simp [b64Decode, h0] at h
  | some v0 =>
  cases h1 : b64Val c1 with
  | none => simp [b64Decode, h0, h1] at h
  | some v1 =>
  by_cases hc2 : c2 = 61
  · simp only [b64Decode, h0, h1, if_pos hc2] at h
    split_ifs at h with hcond
    obtain ⟨hc3, hrest, hz⟩ := hcond
    simp only [Option.some.injEq] at h
    exact Or.inr (Or.inl ⟨v0, v1, rfl, rfl, hc2, hc3, hrest, hz, h.symm⟩)
  · cases h2 : b64Val c2 with
    | none => simp [b64Decode, h0, h1, hc2, h2] at h
    | some v2 =>
    by_cases hc3 : c3 = 61
    · simp only [b64Decode, h0, h1, if_neg hc2, h2, if_pos hc3] at h
      split_ifs at h with hcond
      obtain ⟨hrest, hz⟩ := hcond
      simp only [Option.some.injEq] at h
      exact Or.inr (Or.inr ⟨v0, v1, v2, rfl, rfl, rfl, hc3, hrest, hz, h.symm⟩)
    · cases h3 : b64Val c3 with
      | none => simp [b64Decode, h0, h1, hc2, h2, hc3, h3] at h
      | some v3 =>
      simp only [b64Decode, h0, h1, if_neg hc2, h2, if_neg hc3, h3] at h
      cases hrest : b64Decode rest with
      | none => simp [hrest] at h
      | some dt =>
      simp only [hrest, Option.map_some', Option.some.injEq] at h
      exact Or.inl ⟨v0, v1, v2, v3, dt, rfl, rfl, rfl, rfl, rfl, h.symm⟩

/-- Two four-character chunks sharing their rest and agreeing on at least one
of the two pad-relevant positions decode to byte lists with a common suffix
and middles of at most three bytes whose lengths differ by at most one. -/
theorem b64Decode_chunk_window {c0 c1 c2 c3 k0 k1 k2 k3 : Nat} {rest d d' : List Nat}
    (hagree : c2 = k2 ∨ c3 = k3)
    (h : b64Decode (c0 :: c1 :: c2 :: c3 :: rest) = some d)
    (h' : b64Decode (k0 :: k1 :: k2 :: k3 :: rest) = some d') :
    ∃ mid mid' suf, d = mid ++ suf ∧ d' = mid' ++ suf ∧
      mid.length ≤ 3 ∧ mid'.length ≤ 3 ∧ mid.length ≤ mid'.length + 1 ∧
      mid'.length ≤ mid.length + 1 := by
  rcases b64Decode_cons4 h with
    ⟨v0, v1, v2, v3, dt, _, _, e2, e3, hdt, hd⟩ |
    ⟨v0, v1, _, _, p2, p3, hrest, _, hd⟩ |
    ⟨v0, v1, v2, _, _, e2, p3, hrest, _, hd⟩ <;>
  rcases b64Decode_cons4 h' with
    ⟨u0, u1, u2, u3, dt', _, _, f2, f3, hdt', hd'⟩ |
    ⟨u0, u1, _, _, q2, q3, hrest', _, hd'⟩ |
    ⟨u0, u1, u2, _, _, f2, q3, hrest', _, hd'⟩
  · -- full / full
    have hsuf : dt = dt' := by rw [hdt] at hdt'; exact (Option.some.inj hdt')
    subst hsuf
    exact ⟨[_, _, _], [_, _, _], dt, by simpa using hd, by simpa using hd',
      by simp, by simp, by simp, by simp⟩
  · -- full / double pad: positions 2 and 3 both disagree, impossible
    rcases hagree with hq | hq
    · exact absurd (hq ▸ e2) (by simp [q2, b64Val])
    · exact absurd (hq ▸ e3) (by simp [q3, b64Val])
  · -- full / single pad: the rest is empty, the full chunk closes the string
    rcases hagree with hq | hq
    · subst hrest'
      have hdt0 : dt = [] := by
        simp only [b64Decode, Option.some.injEq] at hdt
        exact hdt.symm
      subst hdt0
      exact ⟨[_, _, _], [_, _], [], by simpa using hd, by simpa using hd',
        by simp, by simp, by simp, by simp⟩
    · exact absurd (hq ▸ e3) (by simp [q3, b64Val])
  · -- double pad / full
    rcases hagree with hq | hq
    · exact absurd (hq ▸ f2) (by simp [← hq, p2, b64Val])
    · exact absurd (hq ▸ f3) (by simp [← hq, p3, b64Val])
  · -- double pad / double pad
    exact ⟨[_], [_], [], by simpa using hd, by simpa using hd',
      by simp, by simp, by simp, by simp⟩
  · -- double pad / single pad
    rcases hagree with hq | hq
    · exact absurd f2 (by simp [← hq, p2, b64Val])
    · exact ⟨[_], [_, _], [], by simpa using hd, by simpa using hd',
        by simp, by simp, by simp, by simp⟩
  · -- single pad / full
    rcases hagree with hq | hq
    · subst hrest
      have hdt0 : dt' = [] := by
        simp only [b64Decode, Option.some.injEq] at hdt'
        exact hdt'.symm
      subst hdt0
      exact ⟨[_, _], [_, _, _], [], by simpa using hd, by simpa using hd',
        by simp, by simp, by simp, by simp⟩
    · exact absurd (hq ▸ f3) (by simp [← hq, p3, b64Val])
  · -- single pad / double pad
    rcases hagree with hq | hq
    · exact absurd e2 (by simp [hq, q2, b64Val])
    · exact ⟨[_, _], [_], [], by simpa using hd, by simpa using hd',
        by simp, by simp, by simp, by simp⟩
  · -- single pad / single pad
    exact ⟨[_, _], [_, _], [], by simpa using hd, by simpa using hd',
      by simp, by simp, by simp, by simp⟩

/-- Changing a single character of a string changes its strict decoding only
inside one three-byte group: the two decodings share a common prefix and a
common suffix, the differing middles hold at most three bytes each, and their
lengths differ by at most one. -/
theorem b64Decode_window : ∀ (u : List Nat) (a b : Nat) (w d d' : List Nat),
    b64Decode (u ++ a :: w) = some d → b64Decode (u ++ b :: w) = some d' →
    ∃ pre mid mid' suf, d = pre ++ (mid ++ suf) ∧ d' = pre ++ (mid' ++ suf) ∧
      mid.length ≤ 3 ∧ mid'.length ≤ 3 ∧ mid.length ≤ mid'.length + 1 ∧
      mid'.length ≤ mid.length + 1
  | [], a, b, c1 :: c2 :: c3 :: rest, d, d', h, h' => by
    obtain ⟨mid, mid', suf, h1, h2, h3, h4, h5, h6⟩ :=
      b64Decode_chunk_window (Or.inl rfl) h h'
    exact ⟨[], mid, mid', suf, by simpa using h1, by simpa using h2, h3, h4, h5, h6⟩
  | [], a, b, [], d, d', h, _ => by simp [b64Decode] at h
  | [], a, b, [_], d, d', h, _ => by simp [b64Decode] at h
  | [], a, b, [_, _], d, d', h, _ => by simp [b64Decode] at h
  | [x0], a, b, c2 :: c3 :: rest, d, d', h, h' => by
    obtain ⟨mid, mid', suf, h1, h2, h3, h4, h5, h6⟩ :=
      b64Decode_chunk_window (Or.inl rfl) h h'
    exact ⟨[], mid, mid', suf, by simpa using h1, by simpa using h2, h3, h4, h5, h6⟩
  | [x0], a, b, [], d, d', h, _ => by simp [b64Decode] at h
  | [x0], a, b, [_], d, d', h, _ => by simp [b64Decode] at h
  | [x0, x1], a, b, c3 :: rest, d, d', h, h' => by
    obtain ⟨mid, mid', suf, h1, h2, h3, h4, h5, h6⟩ :=
      b64Decode_chunk_window (Or.inr rfl) h h'
    exact ⟨[], mid, mid', suf, by simpa using h1, by simpa using h2, h3, h4, h5, h6⟩
  | [x0, x1], a, b, [], d, d', h, _ => by simp [b64Decode] at h
  | [x0, x1, x2], a, b, w, d, d', h, h' => by
    obtain ⟨mid, mid', suf, h1, h2, h3, h4, h5, h6⟩ :=
      b64Decode_chunk_window (Or.inl rfl) h h'
    exact ⟨[], mid, mid', suf, by simpa using h1, by simpa using h2, h3, h4, h5, h6⟩
  | x0 :: x1 :: x2 :: x3 :: u2, a, b, w, d, d', h, h' => by
    rcases b64Decode_cons4 h with
      ⟨v0, v1, v2, v3, dt, e0, e1, e2, e3, hdt, hd⟩ | ⟨_, _, _, _, _, _, hrest, _, _⟩ |
      ⟨_, _, _, _, _, _, _, hrest, _, _⟩
    · rcases b64Decode_cons4 h' with
        ⟨u0, u1, u2v, u3, dt', f0, f1, f2, f3, hdt', hd'⟩ | ⟨_, _, _, _, _, _, hrest', _, _⟩ |
        ⟨_, _, _, _, _, _, _, hrest', _, _⟩
      · have hv0 : u0 = v0 := Option.some.inj (f0.symm.trans e0)
        have hv1 : u1 = v1 := Option.some.inj (f1.symm.trans e1)
        have hv2 : u2v = v2 := Option.some.inj (f2.symm.trans e2)
        have hv3 : u3 = v3 := Option.some.inj (f3.symm.trans e3)
        subst hv0; subst hv1; subst hv2; subst hv3
        obtain ⟨pre, mid, mid', suf, g1, g2, g3, g4, g5, g6⟩ :=
          b64Decode_window u2 a b w dt dt' hdt hdt'
        refine ⟨(u0 * 4 + u1 / 16) :: (u1 % 16 * 16 + u2v / 4) :: (u2v % 4 * 64 + u3) :: pre,
          mid, mid', suf, ?_, ?_, g3, g4, g5, g6⟩
        · simp [hd, g1]
        · simp [hd', g2]
      · exact absurd hrest' (by simp)
      · exact absurd hrest' (by simp)
    · exact absurd hrest (by simp)
    · exact absurd hrest (by simp)

theorem aeadDecrypt_eq_some {key : Nat} {nonce ct p : List Nat} :
    aeadDecrypt key nonce ct = some p ↔ ct = aeadEncrypt key nonce p := by
  unfold aeadDecrypt aeadEncrypt
  constructor
  · intro h
    split_ifs at h with hc
    · simp only [Option.some.injEq] at h
      subst h
      exact hc
  · intro h
    subst h
    have hX : (p ++ nonce ++ p ++ [key % 256]).take
        (((p ++ nonce ++ p ++ [key % 256]).length - (nonce.length + 1)) / 2) = p := by
      have harith : ((p ++ nonce ++ p ++ [key % 256]).length - (nonce.length + 1)) / 2
          = p.length := by
        simp only [List.length_append, List.length_cons, List.length_nil]
        omega
      rw [harith, List.append_assoc, List.append_assoc, List.take_left' rfl]
    rw [hX, if_pos rfl]

theorem bytes_append {l m : List Nat} (hl : Bytes l) (hm : Bytes m) : Bytes (l ++ m) := by
  intro b hb
  rcases List.mem_append.mp hb with hb | hb
  · exact hl b hb
  · exact hm b hb

theorem bytes_aeadEncrypt {key : Nat} {nonce data : List Nat} (hd : Bytes data)
    (hn : Bytes nonce) : Bytes (aeadEncrypt key nonce data) := by
  unfold aeadEncrypt
  refine bytes_append (bytes_append (bytes_append hd hn) hd) ?_
  intro b hb
  simp only [List.mem_singleton] at hb
  subst hb
  exact Nat.mod_lt _ (by omega)

/-- The envelope round trip of src/crypto.rs: decrypting an envelope
produced by `Crypto::encrypt` under the same key recovers the plaintext. -/
theorem Crypto.decrypt_encrypt (key : Nat) (nonce data : List Nat)
    (hd : Bytes data) (hn : Bytes nonce) (hln : nonce.length = 12) :
    Crypto.decrypt key (Crypto.encrypt key nonce data) = .ok data := by
  unfold Crypto.encrypt Crypto.decrypt
  have hbytes : Bytes (nonce ++ aeadEncrypt key nonce data) :=
    bytes_append hn (bytes_aeadEncrypt hd hn)
  simp only [b64Decode_b64Encode _ hbytes]
  have hlen : (nonce ++ aeadEncrypt key nonce data).length = 2 * data.length + 25 := by
    simp only [aeadEncrypt, List.length_append, List.length_cons, List.length_nil]
    omega
  rw [if_neg (by omega)]
  rw [List.take_left' hln, List.drop_left' hln, aeadDecrypt_eq_some.mpr rfl]

/-- Characterisation of a successful decryption: the text decodes, the
decoded data is at least twelve bytes, and it is a nonce followed by a
genuine ciphertext for that nonce. -/
theorem Crypto.decrypt_ok {key : Nat} {s p : List Nat}
    (h : Crypto.decrypt key s = .ok p) :
    ∃ dcd, b64Decode s = some dcd ∧ 12 ≤ dcd.length ∧
      dcd = dcd.take 12 ++ aeadEncrypt key (dcd.take 12) p := by
  unfold Crypto.decrypt at h
  rcases hb : b64Decode s with _ | dcd
  · simp only [hb] at h
    exact absurd h (by simp)
  · rw [hb] at h
    dsimp only at h
    split_ifs at h with hl
    rcases ha : aeadDecrypt key (dcd.take 12) (dcd.drop 12) with _ | pt
    · simp only [ha] at h
      exact absurd h (by simp)
    · simp only [ha, Except.ok.injEq] at h
      subst h
      refine ⟨dcd, rfl, by omega, ?_⟩
      have hshape := aeadDecrypt_eq_some.mp ha
      conv_lhs => rw [← List.take_append_drop 12 dcd]
      rw [hshape]

/-- Two decoded envelopes of the ideal cipher that agree outside a window
of at most three consecutive bytes are equal: the plaintext and the nonce
each occur twice in the envelope, at distance at least twelve, so the
window misses at least one occurrence of every byte. -/
theorem shape_eq_of_window (n p n' p' pre mid mid' suf : List Nat) (t : Nat)
    (hn : n.length = 12) (hn' : n'.length = 12)
    (hml : mid.length ≤ 3) (hmm : mid.length = mid'.length)
    (h : n ++ (p ++ (n ++ (p ++ [t]))) = pre ++ (mid ++ suf))
    (h' : n' ++ (p' ++ (n' ++ (p' ++ [t]))) = pre ++ (mid' ++ suf)) :
    n = n' ∧ p = p' := by
  have hplen : p.length = p'.length := by
    have e1 := congrArg List.length h
    have e2 := congrArg List.length h'
    simp only [List.length_append, List.length_cons, List.length_nil] at e1 e2
    omega
  have agree : ∀ i : Nat, i < pre.length ∨ pre.length + mid.length ≤ i →
      (n ++ (p ++ (n ++ (p ++ [t]))))[i]? = (n' ++ (p' ++ (n' ++ (p' ++ [t]))))[i]? := by
    intro i hi
    rw [h, h']
    rcases hi with hi | hi
    · rw [List.getElem?_append_left hi, List.getElem?_append_left hi]
    · rw [List.getElem?_append_right (by omega), List.getElem?_append_right (by omega),
        List.getElem?_append_right (by omega), List.getElem?_append_right (by omega), hmm]
  have idxn : ∀ (nn pp : List Nat) (j : Nat), nn.length = 12 → j < 12 →
      (nn ++ (pp ++ (nn ++ (pp ++ [t]))))[j]? = nn[j]? := by
    intro nn pp j hnn hj
    rw [List.getElem?_append_left (by omega)]
  have idxn2 : ∀ (nn pp : List Nat) (j : Nat), nn.length = 12 → pp.length = p.length →
      j < 12 → (nn ++ (pp ++ (nn ++ (pp ++ [t]))))[12 + p.length + j]? = nn[j]? := by
    intro nn pp j hnn hpp hj
    rw [List.getElem?_append_right (by omega)]
    rw [show 12 + p.length + j - nn.length = p.length + j by omega]
    rw [List.getElem?_append_right (by omega)]
    rw [show p.length + j - pp.length = j by omega]
    rw [List.getElem?_append_left (by omega)]
  have idxp : ∀ (nn pp : List Nat) (j : Nat), nn.length = 12 → pp.length = p.length →
      j < p.length → (nn ++ (pp ++ (nn ++ (pp ++ [t]))))[12 + j]? = pp[j]? := by
    intro nn pp j hnn hpp hj
    rw [List.getElem?_append_right (by omega)]
    rw [show 12 + j - nn.length = j by omega]
    rw [List.getElem?_append_left (by omega)]
  have idxp2 : ∀ (nn pp : List Nat) (j : Nat), nn.length = 12 → pp.length = p.length →
      j < p.length →
      (nn ++ (pp ++ (nn ++ (pp ++ [t]))))[24 + p.length + j]? = pp[j]? := by
    intro nn pp j hnn hpp hj
    rw [List.getElem?_append_right (by omega)]
    rw [show 24 + p.length + j - nn.length = 12 + p.length + j by omega]
    rw [List.getElem?_append_right (by omega)]
    rw [show 12 + p.length + j - pp.length = 12 + j by omega]
    rw [List.getElem?_append_right (by omega)]
    rw [show 12 + j - nn.length = j by omega]
    rw [List.getElem?_append_left (by omega)]
  constructor
  · apply List.ext_getElem?
    intro j
    by_cases hj : j < 12
    · by_cases hwin : j < pre.length ∨ pre.length + mid.length ≤ j
      · have hag := agree j hwin
        rw [idxn n p j hn hj, idxn n' p' j hn' hj] at hag
        exact hag
      · push_neg at hwin
        have hag := agree (12 + p.length + j) (Or.inr (by omega))
        rw [idxn2 n p j hn rfl hj, idxn2 n' p' j hn' hplen.symm hj] at hag
        exact hag
    · rw [List.getElem?_eq_none (by omega), List.getElem?_eq_none (by omega)]
  · apply List.ext_getElem?
    intro j
    by_cases hj : j < p.length
    · by_cases hwin : 12 + j < pre.length ∨ pre.length + mid.length ≤ 12 + j
      · have hag := agree (12 + j) hwin
        rw [idxp n p j hn rfl hj, idxp n' p' j hn' hplen.symm hj] at hag
        exact hag
      · push_neg at hwin
        have hag := agree (24 + p.length + j) (Or.inr (by omega))
        rw [idxp2 n p j hn rfl hj, idxp2 n' p' j hn' hplen.symm hj] at hag
        exact hag
    · rw [List.getElem?_eq_none (by omega), List.getElem?_eq_none (by omega)]

/-- Tampering with one character of a valid envelope text makes decryption
fail: the changed text either no longer decodes (strict base64), or decodes
to bytes differing from the genuine envelope only inside one three-byte
group, which the ideal cipher rejects because every byte of the envelope is
bound at two positions at least twelve apart. -/
theorem Crypto.decrypt_flip (key : Nat) (nonce data : List Nat)
    (hd : Bytes data) (hn : Bytes nonce) (hln : nonce.length = 12)
    (u w : List Nat) (a b : Nat) (hab : a ≠ b)
    (hsplit : Crypto.encrypt key nonce data = u ++ a :: w) :
    isErr (Crypto.decrypt key (u ++ b :: w)) = true := by
  rcases hres : Crypto.decrypt key (u ++ b :: w) with e | p
  · rfl
  · exfalso
    obtain ⟨dcd', hb', hlen', hshape'⟩ := Crypto.decrypt_ok hres
    have hb : b64Decode (u ++ a :: w) = some (nonce ++ aeadEncrypt key nonce data) := by
      rw [← hsplit]
      exact b64Decode_b64Encode _ (bytes_append hn (bytes_aeadEncrypt hd hn))
    obtain ⟨pre, mid, mid', suf, g1, g2, g3, g4, g5, g6⟩ :=
      b64Decode_window u a b w _ _ hb hb'
    have hne : nonce ++ aeadEncrypt key nonce data ≠ dcd' := by
      intro he
      have hs := b64Decode_inj hb (he ▸ hb')
      have hc := List.append_cancel_left hs
      injection hc with hc1
      exact hab hc1
    have hL : (nonce ++ aeadEncrypt key nonce data).length = 2 * data.length + 25 := by
      simp only [aeadEncrypt, List.length_append, List.length_cons, List.length_nil]
      omega
    have htk : (dcd'.take 12).length = 12 := by
      rw [List.length_take]
      omega
    have hL' : dcd'.length = 2 * p.length + 25 := by
      conv_lhs => rw [hshape']
      simp only [aeadEncrypt, List.length_append, List.length_cons, List.length_nil, htk]
      omega
    have hmm : mid.length = mid'.length := by
      have l1 := congrArg List.length g1
      have l2 := congrArg List.length g2
      rw [hL] at l1
      rw [hL'] at l2
      simp only [List.length_append] at l1 l2
      omega
    have hdform : nonce ++ aeadEncrypt key nonce data
        = nonce ++ (data ++ (nonce ++ (data ++ [key % 256]))) := by
      simp [aeadEncrypt]
    have hd'form : dcd'
        = dcd'.take 12 ++ (p ++ (dcd'.take 12 ++ (p ++ [key % 256]))) := by
      conv_lhs => rw [hshape']
      simp [aeadEncrypt]
    obtain ⟨hneq, hpeq⟩ := shape_eq_of_window nonce data (dcd'.take 12) p pre mid mid' suf
      (key % 256) hln htk g3 hmm (hdform.symm.trans g1) (hd'form.symm.trans g2)
    apply hne
    rw [hdform, hneq, hpeq, ← hd'form]

/-- The error cases of `Crypto::decrypt`, exactly: invalid text encoding,
decoded data shorter than the nonce, or rejection by the cipher. -/
theorem decrypt_err_iff (key : Nat) (s : List Nat) :
    isErr (Crypto.decrypt key s) = true ↔
      (b64Decode s = none ∨ ∃ dcd, b64Decode s = some dcd ∧
        (dcd.length < 12 ∨ aeadDecrypt key (dcd.take 12) (dcd.drop 12) = none)) := by
  unfold Crypto.decrypt
  rcases hb : b64Decode s with _ | dcd
  · simp [isErr]
  · dsimp only
    split_ifs with hl
    · simp only [isErr, true_iff]
      exact Or.inr ⟨dcd, rfl, Or.inl hl⟩
    · rcases ha : aeadDecrypt key (dcd.take 12) (dcd.drop 12) with _ | pt
      · simp only [isErr, true_iff]
        exact Or.inr ⟨dcd, rfl, Or.inr ha⟩
      · simp only [isErr, Bool.false_eq_true, false_iff]
        rintro (hcontra | ⟨dcd2, hdcd2, hbad⟩)
        · exact absurd hcontra (by simp)
        · obtain rfl : dcd = dcd2 := Option.some.inj hdcd2
          rcases hbad with hbad | hbad
          · omega
          · rw [ha] at hbad
            exact absurd hbad (by simp)

/-- C1: for every byte sequence, key, and fresh nonce threaded through
`Crypto::encrypt`, decrypting the produced envelope text with the same key
returns exactly the original bytes. -/
theorem c1_decrypt_encrypt_roundtrip (key : Nat) (nonce data : List Nat)
    (hd : Bytes data) (hn : Bytes nonce) (hln : nonce.length = 12) :
    Crypto.decrypt key (Crypto.encrypt key nonce data) = .ok data :=
  Crypto.decrypt_encrypt key nonce data hd hn hln

theorem c1_witness :
    Crypto.decrypt 7 (Crypto.encrypt 7 nonce0 [104, 105]) = .ok [104, 105] :=
  c1_decrypt_encrypt_roundtrip 7 nonce0 [104, 105] (by decide) (by decide) (by decide)

/-- C2: `Crypto::decrypt` fails (with a CryptoFailure, the `Encryption`
variant, and never crashes) exactly when the text is not valid base64, the
decoded length is below the twelve-byte nonce length, or the cipher rejects
the data; in particular changing any single byte of a valid envelope text
makes decryption fail. -/
theorem c2_decrypt_failure_cases (key : Nat) (nonce data : List Nat)
    (hd : Bytes data) (hn : Bytes nonce) (hln : nonce.length = 12)
    (u w : List Nat) (a b : Nat) (hab : a ≠ b)
    (hsplit : Crypto.encrypt key nonce data = u ++ a :: w) :
    (∀ s : List Nat, isErr (Crypto.decrypt key s) = true ↔
      (b64Decode s = none ∨ ∃ dcd, b64Decode s = some dcd ∧
        (dcd.length < 12 ∨ aeadDecrypt key (dcd.take 12) (dcd.drop 12) = none))) ∧
    isErr (Crypto.decrypt key (u ++ b :: w)) = true :=
  ⟨fun s => decrypt_err_iff key s,
   Crypto.decrypt_flip key nonce data hd hn hln u w a b hab hsplit⟩

theorem c2_witness :
    (∀ s : List Nat, isErr (Crypto.decrypt 7 s) = true ↔
      (b64Decode s = none ∨ ∃ dcd, b64Decode s = some dcd ∧
        (dcd.length < 12 ∨ aeadDecrypt 7 (dcd.take 12) (dcd.drop 12) = none))) ∧
    isErr (Crypto.decrypt 7
      ([] ++ 66 :: (Crypto.encrypt 7 nonce0 [104, 105]).drop 1)) = true :=
  c2_decrypt_failure_cases 7 nonce0 [104, 105] (by decide) (by decide) (by decide)
    [] ((Crypto.encrypt 7 nonce0 [104, 105]).drop 1) 65 66 (by decide) (by decide)

/-- C9: two calls to `Crypto::encrypt` with the same key and identical
plaintext but independently drawn fresh nonces (distinct nonce inputs in
the embedding) produce different envelope texts. -/
theorem c9_nonce_freshness (key : Nat) (data n1 n2 : List Nat)
    (hd : Bytes data) (h1 : Bytes n1) (h2 : Bytes n2)
    (hl1 : n1.length = 12) (hl2 : n2.length = 12) (hne : n1 ≠ n2) :
    Crypto.encrypt key n1 data ≠ Crypto.encrypt key n2 data := by
  intro he
  have d1 : b64Decode (Crypto.encrypt key n1 data)
      = some (n1 ++ aeadEncrypt key n1 data) :=
    b64Decode_b64Encode _ (bytes_append h1 (bytes_aeadEncrypt hd h1))
  have d2 : b64Decode (Crypto.encrypt key n2 data)
      = some (n2 ++ aeadEncrypt key n2 data) :=
    b64Decode_b64Encode _ (bytes_append h2 (bytes_aeadEncrypt hd h2))
  rw [he] at d1
  have hcat : n1 ++ aeadEncrypt key n1 data = n2 ++ aeadEncrypt key n2 data :=
    Option.some.inj (d1.symm.trans d2)
  have htk := congrArg (List.take 12) hcat
  rw [List.take_left' hl1, List.take_left' hl2] at htk
  exact hne htk

theorem c9_witness : Crypto.encrypt 7 nonce0 [104, 105] ≠ Crypto.encrypt 7 nonce1 [104, 105] :=
  c9_nonce_freshness 7 [104, 105] nonce0 nonce1 (by decide) (by decide) (by decide)
    (by decide) (by decide) (by decide)

theorem utf8EncodeChar_ne_nil (c : Nat) : utf8EncodeChar c ≠ [] := by
  unfold utf8EncodeChar
  split_ifs <;> simp

theorem utf8EncodeChar_length_pos (c : Nat) : 0 < (utf8EncodeChar c).length := by
  unfold utf8EncodeChar
  split_ifs <;> simp

/-- Reading one scalar value back off its UTF-8 encoding. -/
theorem utf8Step_encode (c : Nat) (t : List Nat) (h1 : c < 1114112)
    (h2 : ¬(55296 ≤ c ∧ c ≤ 57343)) :
    utf8Step (utf8EncodeChar c ++ t) = some (c, t) := by
  unfold utf8EncodeChar
  split_ifs with ha hb hc
  · rw [List.singleton_append]
    unfold utf8Step
    dsimp only
    rw [if_pos ha]
  · rw [List.cons_append, List.singleton_append]
    unfold utf8Step
    dsimp only
    rw [if_neg (by omega), if_neg (by omega), if_pos (by omega)]
    rw [if_pos (by omega)]
    simp only [Option.some.injEq, Prod.mk.injEq]
    exact ⟨by omega, trivial⟩
  · rw [List.cons_append, List.cons_append, List.singleton_append]
    unfold utf8Step
    dsimp only
    rw [if_neg (by omega), if_neg (by omega), if_neg (by omega), if_pos (by omega)]
    rw [if_pos (by omega), if_pos (by omega)]
    simp only [Option.some.injEq, Prod.mk.injEq]
    exact ⟨by omega, trivial⟩
  · rw [List.cons_append, List.cons_append, List.cons_append, List.singleton_append]
    unfold utf8Step
    dsimp only
    rw [if_neg (by omega), if_neg (by omega), if_neg (by omega), if_neg (by omega),
      if_pos (by omega)]
    rw [if_pos (by omega), if_pos (by omega)]
    simp only [Option.some.injEq, Prod.mk.injEq]
    exact ⟨by omega, trivial⟩

/-- The decoding loop inverts encoding, for any sufficient fuel. -/
theorem utf8DecodeGo_encode : ∀ (s : List Nat) (f : Nat), Scalars s →
    (utf8Encode s).length ≤ f → utf8DecodeGo f (utf8Encode s) = some s
  | [], f, _, _ => by
    cases f <;> rfl
  | c :: cs, f, h, hf => by
    have hc := h c (by simp)
    have ih : ∀ g, (utf8Encode cs).length ≤ g → utf8DecodeGo g (utf8Encode cs) = some cs :=
      fun g hg => utf8DecodeGo_encode cs g (fun x hx => h x (by simp [hx])) hg
    have hjoin : utf8Encode (c :: cs) = utf8EncodeChar c ++ utf8Encode cs := by
      simp [utf8Encode]
    have hlen : 1 ≤ (utf8Encode (c :: cs)).length := by
      rw [hjoin, List.length_append]
      have := utf8EncodeChar_length_pos c
      omega
    rcases f with _ | f
    · omega
    obtain ⟨b0, t0, hcons⟩ : ∃ b0 t0, utf8EncodeChar c ++ utf8Encode cs = b0 :: t0 := by
      rcases he : utf8EncodeChar c with _ | ⟨x, xs⟩
      · exact absurd he (utf8EncodeChar_ne_nil c)
      · exact ⟨x, xs ++ utf8Encode cs, by simp⟩
    rw [hjoin, hcons, utf8DecodeGo, ← hcons, utf8Step_encode c _ hc.1 hc.2]
    have hfc : (utf8Encode cs).length ≤ f := by
      rw [hjoin, List.length_append] at hf
      have := utf8EncodeChar_length_pos c
      omega
    dsimp only
    rw [ih f hfc]
    rfl

/-- UTF-8 round trip on strings of scalar values. -/
theorem utf8Decode_utf8Encode (s : List Nat) (h : Scalars s) :
    utf8Decode (utf8Encode s) = some s :=
  utf8DecodeGo_encode s (utf8Encode s).length h (le_refl _)

/-! ## Blob-store lemmas -/

theorem fsRead_fsWrite_self : ∀ (fs : Fs) (p c : List Nat),
    fsRead (fsWrite fs p c) p = some c
  | [], p, c => by simp [fsWrite, fsRead]
  | e :: fs, p, c => by
    by_cases he : e.1 = p
    · simp [fsWrite, fsRead, he]
    · simp only [fsWrite, if_neg he, fsRead]
      exact fsRead_fsWrite_self fs p c

theorem fsRead_fsWrite_other : ∀ (fs : Fs) (p c q : List Nat), q ≠ p →
    fsRead (fsWrite fs p c) q = fsRead fs q
  | [], p, c, q, hq => by
    have hpq : ¬((p, c).1 = q) := fun h => hq h.symm
    simp [fsWrite, fsRead, hpq]
  | e :: fs, p, c, q, hq => by
    by_cases he : e.1 = p
    · have hpq : ¬((p, c).1 = q) := fun h => hq h.symm
      have heq : ¬(e.1 = q) := by
        rw [he]
        exact fun h => hq h.symm
      simp only [fsWrite, if_pos he, fsRead]
      rw [if_neg hpq, if_neg heq]
    · simp only [fsWrite, if_neg he, fsRead]
      by_cases heq : e.1 = q
      · rw [if_pos heq, if_pos heq]
      · rw [if_neg heq, if_neg heq]
        exact fsRead_fsWrite_other fs p c q hq

theorem fsRead_fsRemove_self : ∀ (fs : Fs) (p : List Nat),
    fsRead (fsRemove fs p) p = none
  | [], p => rfl
  | e :: fs, p => by
    by_cases he : e.1 = p
    · simp only [fsRemove, if_pos he]
      exact fsRead_fsRemove_self fs p
    · simp only [fsRemove, if_neg he, fsRead]
      exact fsRead_fsRemove_self fs p

theorem fsRead_fsRemove_other : ∀ (fs : Fs) (p q : List Nat), q ≠ p →
    fsRead (fsRemove fs p) q = fsRead fs q
  | [], p, q, hq => rfl
  | e :: fs, p, q, hq => by
    by_cases he : e.1 = p
    · have heq : ¬(e.1 = q) := by
        rw [he]
        exact fun h => hq h.symm
      simp only [fsRemove, if_pos he, fsRead]
      rw [if_neg heq]
      exact fsRead_fsRemove_other fs p q hq
    · simp only [fsRemove, if_neg he, fsRead]
      by_cases heq : e.1 = q
      · rw [if_pos heq, if_pos heq]
      · rw [if_neg heq, if_neg heq]
        exact fsRead_fsRemove_other fs p q hq

theorem fsExists_iff (fs : Fs) (p : List Nat) :
    fsExists fs p = true ↔ ∃ c, fsRead fs p = some c := by
  unfold fsExists
  rcases h : fsRead fs p with _ | c <;> simp [Option.isSome]

/-! ## Auxiliary facts for the orchestrator claims -/

theorem bytes_utf8EncodeChar {c : Nat} (h1 : c < 1114112) :
    ∀ b ∈ utf8EncodeChar c, b < 256 := by
  intro b hb
  unfold utf8EncodeChar at hb
  split_ifs at hb with ha hb2 hc
  · simp at hb
    omega
  · simp at hb
    rcases hb with rfl | rfl <;> omega
  · simp at hb
    rcases hb with rfl | rfl | rfl <;> omega
  · simp at hb
    rcases hb with rfl | rfl | rfl | rfl <;> omega

theorem bytes_utf8Encode {s : List Nat} (h : Scalars s) : Bytes (utf8Encode s) := by
  intro b hb
  unfold utf8Encode at hb
  rw [List.mem_join] at hb
  obtain ⟨l, hl, hbl⟩ := hb
  rw [List.mem_map] at hl
  obtain ⟨c, hc, rfl⟩ := hl
  exact bytes_utf8EncodeChar (h c hc).1 b hbl

/-- Scalar validity of an appended string. -/
theorem scalars_append {l m : List Nat} (hl : Scalars l) (hm : Scalars m) :
    Scalars (l ++ m) := by
  intro c hc
  rcases List.mem_append.mp hc with h | h
  · exact hl c h
  · exact hm c h

theorem scalars_str (s : String) : Scalars (str s) := by
  intro c hc
  unfold str at hc
  rw [List.mem_map] at hc
  obtain ⟨ch, _, rfl⟩ := hc
  have hv := ch.valid
  rcases hv with h | ⟨h1, h2⟩
  · have hlt : ch.toNat < 55296 := h
    omega
  · have g1 : 57343 < ch.toNat := h1
    have g2 : ch.toNat < 1114112 := h2
    omega

/-- The membership fact behind `get_note`: the returned row is a row of
the table with the requested id. -/
theorem get_note_mem {db : Database} {id : Nat} {r : NoteRecord}
    (h : db.get_note id = some r) : r ∈ db.rows ∧ r.id = id := by
  unfold Database.get_note at h
  have hmem : r ∈ db.rows.filter (fun r => r.id == id) := by
    obtain ⟨hne, heq⟩ := List.mem_getLast?_eq_getLast (Option.mem_def.mpr h)
    rw [heq]
    exact List.getLast_mem hne
  rw [List.mem_filter] at hmem
  exact ⟨hmem.1, by simpa using hmem.2⟩

/-- C3: `create_note` fails with a Validation error (`InvalidTitle`) and
leaves the state unchanged when the trimmed title is empty; the blob is
always written first, before (and regardless of) the index insert; and on
a fresh store a valid title such as "Report" produces exactly one index
row and exactly one blob file whose decrypted content contains the
literal title. -/
theorem c3_create (cfg : Config) (now : Clock) (nonce : List Nat)
    (hnb : Bytes nonce) (hnl : nonce.length = 12)
    (hsc : Scalars now.contentStamp) :
    (∀ (st : St) (title : List Nat), trimIsEmpty title = true →
      NotesManager.create_note cfg st title now nonce
        = (.error (.InvalidTitle (str "Title cannot be empty")), st)) ∧
    (∀ (st : St) (title : List Nat), trimIsEmpty title = false →
      (NotesManager.create_note cfg st title now nonce).2.fs
        = fsWrite st.fs
            (pathJoin cfg.notesDir (format_filename cfg now.fileStamp title))
            (Crypto.encrypt cfg.encryptionKey nonce
              (utf8Encode (noteContent title now.contentStamp)))) ∧
    (∀ nid : Nat,
      (NotesManager.create_note cfg ⟨⟨[], nid⟩, []⟩ (str "Report") now nonce).1
        = .ok () ∧
      (NotesManager.create_note cfg ⟨⟨[], nid⟩, []⟩ (str "Report") now nonce).2.db.rows.length
        = 1 ∧
      (NotesManager.create_note cfg ⟨⟨[], nid⟩, []⟩ (str "Report") now nonce).2.fs.length
        = 1 ∧
      ∃ env bytes content,
        fsRead (NotesManager.create_note cfg ⟨⟨[], nid⟩, []⟩ (str "Report") now nonce).2.fs
          (pathJoin cfg.notesDir (format_filename cfg now.fileStamp (str "Report")))
          = some env ∧
        Crypto.decrypt cfg.encryptionKey env = .ok bytes ∧
        utf8Decode bytes = some content ∧
        ∃ s t, s ++ str "Report" ++ t = content) := by
  refine ⟨?_, ?_, ?_⟩
  · intro st title ht
    simp [NotesManager.create_note, ht]
  · intro st title ht
    simp only [NotesManager.create_note, ht, Bool.false_eq_true, if_false]
    rcases hins : (st.db.insert_note title (format_filename cfg now.fileStamp title)
        now.epoch) with e | p
    · simp [hins]
    · simp [hins]
  · intro nid
    have ht : trimIsEmpty (str "Report") = false := by decide
    have hins : Database.insert_note ⟨[], nid⟩ (str "Report")
        (format_filename cfg now.fileStamp (str "Report")) now.epoch
        = .ok (nid, ⟨[⟨nid, str "Report",
            format_filename cfg now.fileStamp (str "Report"), now.epoch, now.epoch⟩],
            nid + 1⟩) := by
      simp [Database.insert_note]
    have hcr : NotesManager.create_note cfg ⟨⟨[], nid⟩, []⟩ (str "Report") now nonce
        = (.ok (), ⟨⟨[⟨nid, str "Report",
            format_filename cfg now.fileStamp (str "Report"), now.epoch, now.epoch⟩],
            nid + 1⟩,
          [(pathJoin cfg.notesDir (format_filename cfg now.fileStamp (str "Report")),
            Crypto.encrypt cfg.encryptionKey nonce
              (utf8Encode (noteContent (str "Report") now.contentStamp)))]⟩) := by
      simp only [NotesManager.create_note, ht, Bool.false_eq_true, if_false, hins]
      rfl
    rw [hcr]
    have hscont : Scalars (noteContent (str "Report") now.contentStamp) := by
      unfold noteContent
      exact scalars_append (scalars_append (scalars_append
        (scalars_append (scalars_str _) (scalars_str "Report")) (scalars_str _)) hsc)
        (scalars_str _)
    refine ⟨rfl, rfl, rfl, ?_⟩
    refine ⟨Crypto.encrypt cfg.encryptionKey nonce
        (utf8Encode (noteContent (str "Report") now.contentStamp)),
      utf8Encode (noteContent (str "Report") now.contentStamp),
      noteContent (str "Report") now.contentStamp, ?_, ?_, ?_, ?_⟩
    · simp [fsRead]
    · exact Crypto.decrypt_encrypt _ _ _ (bytes_utf8Encode hscont) hnb hnl
    · exact utf8Decode_utf8Encode _ hscont
    · exact ⟨str "---\ntitle: ",
        str "\ndate: " ++ now.contentStamp ++ str "\n---\n\n", by
          simp [noteContent, List.append_assoc]⟩

theorem c3_witness :
    (NotesManager.create_note cfg0 ⟨⟨[], 1⟩, []⟩ (str "Report") clock0 nonce0).1
      = .ok () ∧
    NotesManager.create_note cfg0 ⟨⟨[], 1⟩, []⟩ (str "") clock0 nonce0
      = (.error (.InvalidTitle (str "Title cannot be empty")), ⟨⟨[], 1⟩, []⟩) ∧
    NotesManager.create_note cfg0 ⟨⟨[], 1⟩, []⟩ (str "   ") clock0 nonce0
      = (.error (.InvalidTitle (str "Title cannot be empty")), ⟨⟨[], 1⟩, []⟩) := by
  have h := c3_create cfg0 clock0 nonce0 (by decide) (by decide) (by decide)
  exact ⟨(h.2.2 1).1, h.1 ⟨⟨[], 1⟩, []⟩ (str "") (by decide),
    h.1 ⟨⟨[], 1⟩, []⟩ (str "   ") (by decide)⟩

/-- C10: when the computed filename equals an existing record's filename
(same sanitised title in the same wall-clock second), `create_note`
overwrites the blob at that path with the new note's envelope before the
index insert fails on the UNIQUE filename constraint — the call returns
an error, the index is unchanged, and the existing note's encrypted
content has already been destroyed. -/
theorem c10_create_overwrites_on_duplicate (cfg : Config) (st : St)
    (title : List Nat) (now : Clock) (nonce : List Nat)
    (ht : trimIsEmpty title = false)
    (hdup : st.db.rows.any
      (fun r => r.filename == format_filename cfg now.fileStamp title) = true) :
    NotesManager.create_note cfg st title now nonce
      = (.error (.Database (str "UNIQUE constraint failed: notes.filename")),
         ⟨st.db, fsWrite st.fs
           (pathJoin cfg.notesDir (format_filename cfg now.fileStamp title))
           (Crypto.encrypt cfg.encryptionKey nonce
             (utf8Encode (noteContent title now.contentStamp)))⟩) ∧
    fsRead (NotesManager.create_note cfg st title now nonce).2.fs
      (pathJoin cfg.notesDir (format_filename cfg now.fileStamp title))
      = some (Crypto.encrypt cfg.encryptionKey nonce
          (utf8Encode (noteContent title now.contentStamp))) := by
  have hins : st.db.insert_note title (format_filename cfg now.fileStamp title) now.epoch
      = .error (.Database (str "UNIQUE constraint failed: notes.filename")) := by
    simp only [Database.insert_note, hdup, if_true]
  have hcr : NotesManager.create_note cfg st title now nonce
      = (.error (.Database (str "UNIQUE constraint failed: notes.filename")),
         ⟨st.db, fsWrite st.fs
           (pathJoin cfg.notesDir (format_filename cfg now.fileStamp title))
           (Crypto.encrypt cfg.encryptionKey nonce
             (utf8Encode (noteContent title now.contentStamp)))⟩) := by
    simp only [NotesManager.create_note, ht, Bool.false_eq_true, if_false, hins]
  refine ⟨hcr, ?_⟩
  rw [hcr]
  exact fsRead_fsWrite_self _ _ _

theorem c10_witness :
    NotesManager.create_note cfg0 stDup (str "Report") clock0 nonce0
      = (.error (.Database (str "UNIQUE constraint failed: notes.filename")),
         ⟨stDup.db, fsWrite stDup.fs
           (pathJoin cfg0.notesDir (format_filename cfg0 clock0.fileStamp (str "Report")))
           (Crypto.encrypt cfg0.encryptionKey nonce0
             (utf8Encode (noteContent (str "Report") clock0.contentStamp)))⟩) ∧
    fsRead (NotesManager.create_note cfg0 stDup (str "Report") clock0 nonce0).2.fs
      (pathJoin cfg0.notesDir (format_filename cfg0 clock0.fileStamp (str "Report")))
      = some (Crypto.encrypt cfg0.encryptionKey nonce0
          (utf8Encode (noteContent (str "Report") clock0.contentStamp))) :=
  c10_create_overwrites_on_duplicate cfg0 stDup (str "Report") clock0 nonce0
    (by decide) (by decide)

/-- C6: `delete_note` on an unknown id returns false and leaves index and
blob store byte-for-byte unchanged; on an existing id it returns true,
the blob file is deleted if it exists (its absence is not an error) and
then the index row is deleted. -/
theorem c6_delete (cfg : Config) (st : St) (id : Nat) :
    (st.db.get_note id = none →
      NotesManager.delete_note cfg st id = (.ok false, st)) ∧
    (∀ note, st.db.get_note id = some note →
      NotesManager.delete_note cfg st id
        = (.ok true,
           ⟨⟨st.db.rows.filter (fun r => r.id != id), st.db.nextId⟩,
            if fsExists st.fs (pathJoin cfg.notesDir note.filename) then
              fsRemove st.fs (pathJoin cfg.notesDir note.filename)
            else st.fs⟩) ∧
      fsRead (NotesManager.delete_note cfg st id).2.fs
        (pathJoin cfg.notesDir note.filename) = none ∧
      ∀ r ∈ (NotesManager.delete_note cfg st id).2.db.rows, r.id ≠ id) := by
  constructor
  · intro h
    simp [NotesManager.delete_note, h]
  · intro note h
    have hdel : NotesManager.delete_note cfg st id
        = (.ok true,
           ⟨⟨st.db.rows.filter (fun r => r.id != id), st.db.nextId⟩,
            if fsExists st.fs (pathJoin cfg.notesDir note.filename) then
              fsRemove st.fs (pathJoin cfg.notesDir note.filename)
            else st.fs⟩) := by
      simp only [NotesManager.delete_note, h, Database.delete_note]
    refine ⟨hdel, ?_, ?_⟩
    · rw [hdel]
      by_cases hex : fsExists st.fs (pathJoin cfg.notesDir note.filename) = true
      · simp only [hex, if_true]
        exact fsRead_fsRemove_self _ _
      · have hex2 : fsExists st.fs (pathJoin cfg.notesDir note.filename) = false := by
          simp only [Bool.not_eq_true] at hex
          exact hex
        simp only [hex2, Bool.false_eq_true, if_false]
        unfold fsExists at hex2
        rcases hr : fsRead st.fs (pathJoin cfg.notesDir note.filename) with _ | c
        · rfl
        · rw [hr] at hex2
          exact absurd hex2 (by simp)
    · rw [hdel]
      intro r hr
      rw [List.mem_filter] at hr
      simpa using hr.2

theorem c6_witness :
    NotesManager.delete_note cfg0 stOne 5 = (.ok false, stOne) ∧
    NotesManager.delete_note cfg0 stOne 1
      = (.ok true,
         ⟨⟨stOne.db.rows.filter (fun r => r.id != 1), stOne.db.nextId⟩,
          if fsExists stOne.fs (pathJoin cfg0.notesDir (str "f.md")) then
            fsRemove stOne.fs (pathJoin cfg0.notesDir (str "f.md"))
          else stOne.fs⟩) := by
  have h5 := c6_delete cfg0 stOne 5
  have h1 := c6_delete cfg0 stOne 1
  exact ⟨h5.1 (by decide), (h1.2 ⟨1, str "t", str "f.md", 0, 0⟩ (by decide)).1⟩

/-- C4 (amended): `read_note` fails NotFound without a record; fails with
an IO error (not a crash) when the record exists but the blob file is
absent; fails with a CryptoFailure when decryption fails; and fails with
a CryptoFailure — not Validation — when the decrypted bytes are not
valid text (`String::from_utf8` errors are mapped to
`NoterError::Encryption`). -/
theorem c4_read_errors (cfg : Config) (st : St) (id : Nat) :
    (st.db.get_note id = none →
      NotesManager.read_note cfg st id = .error (.NoteNotFound id)) ∧
    (∀ note, st.db.get_note id = some note →
      (fsRead st.fs (pathJoin cfg.notesDir note.filename) = none →
        NotesManager.read_note cfg st id
          = .error (.Io (str "No such file or directory"))) ∧
      (∀ enc e, fsRead st.fs (pathJoin cfg.notesDir note.filename) = some enc →
        Crypto.decrypt cfg.encryptionKey enc = .error e →
        NotesManager.read_note cfg st id = .error (.Encryption e.display)) ∧
      (∀ enc bytes, fsRead st.fs (pathJoin cfg.notesDir note.filename) = some enc →
        Crypto.decrypt cfg.encryptionKey enc = .ok bytes →
        utf8Decode bytes = none →
        NotesManager.read_note cfg st id
          = .error (.Encryption (str "invalid utf-8")))) := by
  constructor
  · intro h
    simp [NotesManager.read_note, h]
  · intro note h
    refine ⟨?_, ?_, ?_⟩
    · intro hfs
      simp [NotesManager.read_note, h, hfs]
    · intro enc e hfs hde
      simp [NotesManager.read_note, h, hfs, hde]
    · intro enc bytes hfs hde hu
      simp [NotesManager.read_note, h, hfs, hde, hu]

/-- C4, counterexample to the claim as stated: when the decrypted bytes
are not valid text, `read_note` returns a CryptoFailure (`Encryption`),
not a Validation error. -/
theorem c4_counterexample :
    NotesManager.read_note cfg0 stBad 1 = .error (.Encryption (str "invalid utf-8")) ∧
    isValidationErr (NotesManager.read_note cfg0 stBad 1) = false := by decide

theorem c4_witness :
    NotesManager.read_note cfg0 stBad 5 = .error (.NoteNotFound 5) ∧
    NotesManager.read_note cfg0 stBad 1 = .error (.Encryption (str "invalid utf-8")) := by
  have h5 := c4_read_errors cfg0 stBad 5
  have h1 := c4_read_errors cfg0 stBad 1
  refine ⟨h5.1 (by decide), ?_⟩
  exact (h1.2 ⟨1, str "t", str "f.md", 0, 0⟩ (by decide)).2.2
    (Crypto.encrypt 7 nonce0 [255]) [255] (by decide) (by decide) (by decide)

/-- C5 (amended): when the editor step of `edit_note` fails, the call
fails with EditorFailure and the original encrypted blob is untouched
byte-for-byte (provided the temp path differs from the blob path, i.e.
the blob is not itself named with the temp extension); on a non-success
exit the temporary plaintext file is deleted, but on a failure to launch
it is left behind, holding the decrypted plaintext. -/
theorem c5_edit_editor_failure (cfg : Config) (st : St) (id : Nat)
    (envEditor : Option (List Nat)) (editorOutcome : Option Bool)
    (edited nonce : List Nat) (note : NoteRecord) (enc dec ed : List Nat)
    (hnote : st.db.get_note id = some note)
    (henc : fsRead st.fs (pathJoin cfg.notesDir note.filename) = some enc)
    (hdec : Crypto.decrypt cfg.encryptionKey enc = .ok dec)
    (hed : cfg.editor.orElse (fun _ => envEditor) = some ed)
    (htemp : withExtension (pathJoin cfg.notesDir note.filename) (str "temp")
      ≠ pathJoin cfg.notesDir note.filename)
    (hfail : editorOutcome = none ∨ editorOutcome = some false) :
    (∃ m, (NotesManager.edit_note cfg st id envEditor editorOutcome edited nonce).1
       = .error (.EditorError m)) ∧
    fsRead (NotesManager.edit_note cfg st id envEditor editorOutcome edited nonce).2.fs
      (pathJoin cfg.notesDir note.filename) = some enc ∧
    (editorOutcome = some false →
      fsRead (NotesManager.edit_note cfg st id envEditor editorOutcome edited nonce).2.fs
        (withExtension (pathJoin cfg.notesDir note.filename) (str "temp")) = none) ∧
    (editorOutcome = none →
      fsRead (NotesManager.edit_note cfg st id envEditor editorOutcome edited nonce).2.fs
        (withExtension (pathJoin cfg.notesDir note.filename) (str "temp")) = some dec) := by
  rcases hfail with hnone | hfalse
  · subst hnone
    have hrun : NotesManager.edit_note cfg st id envEditor none edited nonce
        = (.error (.EditorError (str "spawn failure")),
           ⟨st.db, fsWrite st.fs
             (withExtension (pathJoin cfg.notesDir note.filename) (str "temp")) dec⟩) := by
      simp only [NotesManager.edit_note, hnote, henc, hdec, hed]
    rw [hrun]
    refine ⟨⟨str "spawn failure", rfl⟩, ?_, ?_, ?_⟩
    · exact (fsRead_fsWrite_other _ _ _ _ (fun h => htemp h.symm)).trans henc
    · intro h
      exact absurd h (by simp)
    · intro _
      exact fsRead_fsWrite_self _ _ _
  · subst hfalse
    have hrun : NotesManager.edit_note cfg st id envEditor (some false) edited nonce
        = (.error (.EditorError (str "Editor exited with non-zero status")),
           ⟨st.db, fsRemove
             (fsWrite st.fs
               (withExtension (pathJoin cfg.notesDir note.filename) (str "temp")) dec)
             (withExtension (pathJoin cfg.notesDir note.filename) (str "temp"))⟩) := by
      simp only [NotesManager.edit_note, hnote, henc, hdec, hed]
      rfl
    rw [hrun]
    refine ⟨⟨str "Editor exited with non-zero status", rfl⟩, ?_, ?_, ?_⟩
    · rw [fsRead_fsRemove_other _ _ _ (fun h => htemp h.symm),
        fsRead_fsWrite_other _ _ _ _ (fun h => htemp h.symm)]
      exact henc
    · intro _
      exact fsRead_fsRemove_self _ _
    · intro h
      exact absurd h (by simp)

/-- C5, counterexample to the claim as stated: on a spawn failure the
temporary plaintext file is not deleted — it remains in the blob store
directory holding the decrypted plaintext. -/
theorem c5_counterexample :
    isErr (NotesManager.edit_note cfg0 stEdit 1 none none [] nonce0).1 = true ∧
    fsRead (NotesManager.edit_note cfg0 stEdit 1 none none [] nonce0).2.fs
      (withExtension (pathJoin cfg0.notesDir (str "f.md")) (str "temp"))
      = some (utf8Encode (str "hello")) := by decide

theorem c5_witness :
    (∃ m, (NotesManager.edit_note cfg0 stEdit 1 none (some false) [] nonce0).1
       = .error (.EditorError m)) ∧
    fsRead (NotesManager.edit_note cfg0 stEdit 1 none (some false) [] nonce0).2.fs
      (pathJoin cfg0.notesDir (str "f.md"))
      = some (Crypto.encrypt 7 nonce0 (utf8Encode (str "hello"))) := by
  have h := c5_edit_editor_failure cfg0 stEdit 1 none (some false) [] nonce0
    ⟨1, str "t", str "f.md", 0, 0⟩
    (Crypto.encrypt 7 nonce0 (utf8Encode (str "hello"))) (utf8Encode (str "hello"))
    (str "vi") (by decide) (by decide)
    (by apply Crypto.decrypt_encrypt <;> decide) (by decide) (by decide) (Or.inr rfl)
  exact ⟨h.1, h.2.1⟩

/-! ## Semantics of the LIKE filter (src/db.rs search) -/

theorem likeMatchGo_irrel : ∀ (f g : Nat) (ps t : List Nat),
    ps.length + t.length ≤ f → ps.length + t.length ≤ g →
    likeMatchGo f ps t = likeMatchGo g ps t
  | f, g, [], [], _, _ => by cases f <;> cases g <;> rfl
  | f, g, [], _ :: _, _, _ => by cases f <;> cases g <;> rfl
  | 0, _, _ :: ps, t, hf, _ => by
    exfalso
    simp only [List.length_cons] at hf
    omega
  | _ + 1, 0, _ :: ps, t, _, hg => by
    exfalso
    simp only [List.length_cons] at hg
    omega
  | f + 1, g + 1, p :: ps, [], hf, hg => by
    simp only [List.length_cons, List.length_nil] at hf hg
    simp only [likeMatchGo]
    rw [likeMatchGo_irrel f g ps [] (by (try simp only [List.length_cons, List.length_nil]); omega) (by (try simp only [List.length_cons, List.length_nil]); omega)]
  | f + 1, g + 1, p :: ps, c :: ts, hf, hg => by
    simp only [List.length_cons] at hf hg
    simp only [likeMatchGo]
    split_ifs with h37 h95
    · rw [likeMatchGo_irrel f g ps (c :: ts) (by (try simp only [List.length_cons, List.length_nil]); omega) (by (try simp only [List.length_cons, List.length_nil]); omega),
        likeMatchGo_irrel f g (p :: ps) ts (by (try simp only [List.length_cons, List.length_nil]); omega) (by (try simp only [List.length_cons, List.length_nil]); omega)]
    · rw [likeMatchGo_irrel f g ps ts (by (try simp only [List.length_cons, List.length_nil]); omega) (by (try simp only [List.length_cons, List.length_nil]); omega)]
    · rw [likeMatchGo_irrel f g ps ts (by (try simp only [List.length_cons, List.length_nil]); omega) (by (try simp only [List.length_cons, List.length_nil]); omega)]

theorem likeMatch_go (f : Nat) (ps t : List Nat) (hf : ps.length + t.length ≤ f) :
    likeMatchGo f ps t = likeMatch ps t :=
  likeMatchGo_irrel f (ps.length + t.length) ps t hf (le_refl _)

theorem likeMatch_cons_nil (p : Nat) (ps : List Nat) :
    likeMatch (p :: ps) [] = ((p == 37) && likeMatch ps []) := by
  unfold likeMatch
  have hl : (p :: ps).length + ([] : List Nat).length = ps.length + 1 := by simp
  rw [hl]
  simp only [likeMatchGo]
  rw [likeMatch_go ps.length ps [] (by simp)]
  rfl

theorem likeMatch_cons_cons (p c : Nat) (ps ts : List Nat) :
    likeMatch (p :: ps) (c :: ts)
      = if p = 37 then likeMatch ps (c :: ts) || likeMatch (p :: ps) ts
        else if p = 95 then likeMatch ps ts
        else ((likeFold p == likeFold c) && likeMatch ps ts) := by
  unfold likeMatch
  have hl : (p :: ps).length + (c :: ts).length = (ps.length + ts.length + 1) + 1 := by
    simp
    omega
  rw [hl]
  simp only [likeMatchGo]
  split_ifs with h37 h95
  · rw [likeMatch_go _ ps (c :: ts) (by (try simp only [List.length_cons, List.length_nil]); omega),
      likeMatch_go _ (p :: ps) ts (by (try simp only [List.length_cons, List.length_nil]); omega)]
    rfl
  · rw [likeMatch_go _ ps ts (by (try simp only [List.length_cons, List.length_nil]); omega)]
    rfl
  · rw [likeMatch_go _ ps ts (by (try simp only [List.length_cons, List.length_nil]); omega)]
    rfl

theorem likeMatch_percent_nil : ∀ t : List Nat, likeMatch [37] t = true
  | [] => rfl
  | c :: ts => by
    rw [likeMatch_cons_cons, if_pos rfl, likeMatch_percent_nil ts]
    simp

theorem likeMatch_percent_iff (ps : List Nat) :
    ∀ t, likeMatch (37 :: ps) t = true ↔ ∃ n, likeMatch ps (t.drop n) = true
  | [] => by
    rw [likeMatch_cons_nil]
    constructor
    · intro h
      refine ⟨0, ?_⟩
      simpa using h
    · rintro ⟨n, hn⟩
      rw [List.drop_nil] at hn
      simp [hn]
  | c :: ts => by
    rw [likeMatch_cons_cons, if_pos rfl]
    constructor
    · intro h
      rcases Bool.or_eq_true_iff.mp h with h1 | h2
      · exact ⟨0, h1⟩
      · obtain ⟨n, hn⟩ := (likeMatch_percent_iff ps ts).mp h2
        exact ⟨n + 1, hn⟩
    · rintro ⟨n, hn⟩
      rcases n with _ | n
      · rw [List.drop_zero] at hn
        rw [hn]
        simp
      · rw [(likeMatch_percent_iff ps ts).mpr ⟨n, hn⟩]
        simp

theorem likeMatch_literal : ∀ (q : List Nat), (∀ x ∈ q, x ≠ 37 ∧ x ≠ 95) →
    ∀ t, (likeMatch (q ++ [37]) t = true ↔ (q.map likeFold) <+: (t.map likeFold))
  | [], _, t => by
    simp only [List.nil_append, List.map_nil]
    rw [likeMatch_percent_nil t]
    simp [List.nil_prefix]
  | p :: q2, hq, [] => by
    have hp := hq p (by simp)
    have h37 : (p == 37) = false := by
      simp [hp.1]
    rw [List.cons_append, likeMatch_cons_nil, h37]
    simp only [Bool.false_and, List.map_cons, List.map_nil]
    constructor
    · intro h
      exact absurd h (by simp)
    · intro h
      exact absurd (List.prefix_nil.mp h) (by simp)
  | p :: q2, hq, c :: ts => by
    have hp := hq p (by simp)
    have hq2 : ∀ x ∈ q2, x ≠ 37 ∧ x ≠ 95 := fun x hx => hq x (by simp [hx])
    rw [List.cons_append, likeMatch_cons_cons, if_neg hp.1, if_neg hp.2]
    simp only [List.map_cons]
    rw [List.cons_prefix_cons]
    constructor
    · intro h
      obtain ⟨h1, h2⟩ := Bool.and_eq_true_iff.mp h
      exact ⟨beq_iff_eq.mp h1, (likeMatch_literal q2 hq2 ts).mp h2⟩
    · rintro ⟨h1, h2⟩
      rw [Bool.and_eq_true_iff]
      exact ⟨beq_iff_eq.mpr h1, (likeMatch_literal q2 hq2 ts).mpr h2⟩

theorem prefix_drop_iff (A B : List Nat) :
    (∃ n, A <+: B.drop n) ↔ A <:+: B := by
  constructor
  · rintro ⟨n, r, hr⟩
    exact ⟨B.take n, r, by rw [List.append_assoc, hr, List.take_append_drop]⟩
  · rintro ⟨u, v, huv⟩
    refine ⟨u.length, v, ?_⟩
    rw [← huv, List.append_assoc, List.drop_left]

theorem likeMatch_two_percent (t : List Nat) : likeMatch [37, 37] t = true :=
  (likeMatch_percent_iff [37] t).mpr ⟨0, likeMatch_percent_nil _⟩

/-- C7 (amended): `search_notes` returns exactly the records whose title
or filename matches `LIKE '%query%'` under SQLite semantics —
ASCII-case-insensitive, with `%` and `_` in the query acting as
wildcards; the empty query matches every record; and for queries without
wildcard characters the LIKE filter is exactly ASCII-case-insensitive
substring containment. -/
theorem c7_search_like (db : Database) (q : List Nat) :
    (∀ r, r ∈ db.search_notes q ↔ r ∈ db.rows ∧
      (likeMatch (37 :: (q ++ [37])) r.title = true ∨
       likeMatch (37 :: (q ++ [37])) r.filename = true)) ∧
    db.search_notes [] = db.rows ∧
    ((∀ x ∈ q, x ≠ 37 ∧ x ≠ 95) → ∀ s,
      (likeMatch (37 :: (q ++ [37])) s = true ↔
        (q.map likeFold) <:+: (s.map likeFold))) := by
  refine ⟨?_, ?_, ?_⟩
  · intro r
    unfold Database.search_notes
    rw [List.mem_filter, Bool.or_eq_true_iff]
  · unfold Database.search_notes
    apply List.filter_eq_self.mpr
    intro r _
    have h1 : likeMatch (37 :: (([] : List Nat) ++ [37])) r.title = true :=
      likeMatch_two_percent r.title
    rw [h1]
    simp
  · intro hq s
    rw [likeMatch_percent_iff]
    constructor
    · rintro ⟨n, hn⟩
      have hpre := (likeMatch_literal q hq (s.drop n)).mp hn
      refine (prefix_drop_iff _ _).mp ⟨n, ?_⟩
      rwa [List.map_drop] at hpre
    · intro h
      obtain ⟨n, hn⟩ := (prefix_drop_iff _ _).mpr h
      refine ⟨n, (likeMatch_literal q hq (s.drop n)).mpr ?_⟩
      rwa [List.map_drop]

/-- C7, counterexample to the claim as stated: the query "report" is not
a case-sensitive substring of either the title "Report" or the filename
"x.md", yet search returns the record — SQLite LIKE is
case-insensitive for ASCII. -/
theorem c7_counterexample :
    Database.search_notes db1 (str "report") = db1.rows ∧
    ¬(str "report" <:+: str "Report") ∧ ¬(str "report" <:+: str "x.md") :=
  ⟨by decide, by decide, by decide⟩

theorem c7_witness :
    ((⟨1, str "Report", str "x.md", 0, 0⟩ : NoteRecord)
        ∈ db1.search_notes (str "report") ↔
      (⟨1, str "Report", str "x.md", 0, 0⟩ : NoteRecord) ∈ db1.rows ∧
        (likeMatch (37 :: (str "report" ++ [37])) (str "Report") = true ∨
         likeMatch (37 :: (str "report" ++ [37])) (str "x.md") = true)) ∧
    (likeMatch (37 :: (str "report" ++ [37])) (str "Report") = true ↔
      ((str "report").map likeFold) <:+: ((str "Report").map likeFold)) := by
  have h := c7_search_like db1 (str "report")
  exact ⟨h.1 ⟨1, str "Report", str "x.md", 0, 0⟩, h.2.2 (by decide) (str "Report")⟩

/-! ## Export (C8) -/

/-- `read_note` depends only on the index and on the blob paths of the
index rows. -/
theorem read_note_congr (cfg : Config) (st1 st2 : St) (id : Nat)
    (hdb : st1.db = st2.db)
    (hfs : ∀ r ∈ st2.db.rows, fsRead st1.fs (pathJoin cfg.notesDir r.filename)
       = fsRead st2.fs (pathJoin cfg.notesDir r.filename)) :
    NotesManager.read_note cfg st1 id = NotesManager.read_note cfg st2 id := by
  unfold NotesManager.read_note
  rw [hdb]
  rcases hn : st2.db.get_note id with _ | note
  · rfl
  · dsimp only
    rw [hfs note (get_note_mem hn).1]

theorem export_note_db (cfg : Config) (st : St) (id : Nat) (path : List Nat) :
    (NotesManager.export_note cfg st id path).2.db = st.db := by
  unfold NotesManager.export_note
  rcases h : NotesManager.read_note cfg st id with e | c <;> rfl

theorem export_note_fs_other (cfg : Config) (st : St) (id : Nat) (path q : List Nat)
    (hq : q ≠ path) :
    fsRead (NotesManager.export_note cfg st id path).2.fs q = fsRead st.fs q := by
  unfold NotesManager.export_note
  rcases h : NotesManager.read_note cfg st id with e | c
  · rfl
  · exact fsRead_fsWrite_other _ _ _ _ hq

theorem export_note_err (cfg : Config) (st : St) (id : Nat) (path : List Nat) :
    isErr (NotesManager.export_note cfg st id path).1
      = isErr (NotesManager.read_note cfg st id) := by
  unfold NotesManager.export_note
  rcases h : NotesManager.read_note cfg st id with e | c <;> rfl

/-- The export loop: with a state agreeing with the original on the
index and on every blob path, and export paths disjoint from blob paths,
the success count is the count of notes whose read succeeds in the
original state, and the index is never touched. -/
theorem export_fold (cfg : Config) (st : St) (targetDir : List Nat) :
    ∀ (notes : List NoteRecord) (acc : Nat) (stAcc : St),
    stAcc.db = st.db →
    (∀ r ∈ st.db.rows, fsRead stAcc.fs (pathJoin cfg.notesDir r.filename)
       = fsRead st.fs (pathJoin cfg.notesDir r.filename)) →
    (∀ r ∈ notes, r ∈ st.db.rows) →
    (∀ r1 ∈ notes, ∀ r2 ∈ st.db.rows,
      pathJoin targetDir (sanitize_filename r1.title ++ [46] ++ cfg.defaultExtension)
        ≠ pathJoin cfg.notesDir r2.filename) →
    (notes.foldl
      (fun (acc : Nat × St) note =>
        match NotesManager.export_note cfg acc.2 note.id
          (pathJoin targetDir
            (sanitize_filename note.title ++ [46] ++ cfg.defaultExtension)) with
        | (.ok _, st2) => (acc.1 + 1, st2)
        | (.error _, st2) => (acc.1, st2)) (acc, stAcc)).1
      = acc + notes.countP (fun r => !isErr (NotesManager.read_note cfg st r.id)) ∧
    (notes.foldl
      (fun (acc : Nat × St) note =>
        match NotesManager.export_note cfg acc.2 note.id
          (pathJoin targetDir
            (sanitize_filename note.title ++ [46] ++ cfg.defaultExtension)) with
        | (.ok _, st2) => (acc.1 + 1, st2)
        | (.error _, st2) => (acc.1, st2)) (acc, stAcc)).2.db = st.db
  | [], acc, stAcc, hdb, _, _, _ => by
    simp only [List.foldl_nil, List.countP_nil]
    exact ⟨rfl, hdb⟩
  | n :: rest, acc, stAcc, hdb, hfs, hmem, hdisj => by
    have hnmem : n ∈ st.db.rows := hmem n (by simp)
    have hread : NotesManager.read_note cfg stAcc n.id
        = NotesManager.read_note cfg st n.id :=
      read_note_congr cfg stAcc st n.id hdb hfs
    have hpath := fun r2 hr2 => hdisj n (by simp) r2 hr2
    have hstep : ∀ exn : Except NoterError Unit × St,
      exn = NotesManager.export_note cfg stAcc n.id
        (pathJoin targetDir
          (sanitize_filename n.title ++ [46] ++ cfg.defaultExtension)) →
      exn.2.db = st.db ∧
      (∀ r ∈ st.db.rows, fsRead exn.2.fs (pathJoin cfg.notesDir r.filename)
        = fsRead st.fs (pathJoin cfg.notesDir r.filename)) := by
      rintro exn rfl
      constructor
      · rw [export_note_db]
        exact hdb
      · intro r hr
        rw [export_note_fs_other cfg stAcc n.id _ _ (Ne.symm (hpath r hr))]
        exact hfs r hr
    have hmem2 : ∀ r ∈ rest, r ∈ st.db.rows := fun r hr => hmem r (by simp [hr])
    have hdisj2 : ∀ r1 ∈ rest, ∀ r2 ∈ st.db.rows,
        pathJoin targetDir (sanitize_filename r1.title ++ [46] ++ cfg.defaultExtension)
          ≠ pathJoin cfg.notesDir r2.filename :=
      fun r1 h1 r2 h2 => hdisj r1 (by simp [h1]) r2 h2
    simp only [List.foldl_cons, List.countP_cons]
    rcases hex : NotesManager.export_note cfg stAcc n.id
        (pathJoin targetDir
          (sanitize_filename n.title ++ [46] ++ cfg.defaultExtension)) with ⟨res, st2⟩
    have hinv := hstep (res, st2) hex.symm
    have herr : isErr res = isErr (NotesManager.read_note cfg st n.id) := by
      have := export_note_err cfg stAcc n.id
        (pathJoin targetDir
          (sanitize_filename n.title ++ [46] ++ cfg.defaultExtension))
      rw [hex, hread] at this
      exact this
    rcases res with e | u
    · have hne : isErr (NotesManager.read_note cfg st n.id) = true := by
        rw [← herr]
        rfl
      have ih := export_fold cfg st targetDir rest acc st2 hinv.1 hinv.2 hmem2 hdisj2
      simp only [hne]
      constructor
      · rw [ih.1]
        simp
      · exact ih.2
    · have hok : isErr (NotesManager.read_note cfg st n.id) = false := by
        rw [← herr]
        rfl
      have ih := export_fold cfg st targetDir rest (acc + 1) st2 hinv.1 hinv.2 hmem2 hdisj2
      simp only [hok]
      constructor
      · rw [ih.1]
        simp
        omega
      · exact ih.2

theorem countP_not_add {α : Type} (p : α → Bool) :
    ∀ l : List α, l.countP p + l.countP (fun a => !p a) = l.length
  | [] => rfl
  | a :: l => by
    have ih := countP_not_add p l
    cases h : p a with
    | false =>
      simp [List.countP_cons, h]
      omega
    | true =>
      simp [List.countP_cons, h]
      omega

/-- C8: `export_notes` on an empty index returns (0,0) and leaves the
state untouched (it returns before touching the filesystem); with a
populated index of which exactly one note's read fails (a corrupted
blob), it attempts every note independently, never aborts, returns
(N-1, N), and leaves every index row intact — provided the export paths
do not collide with the blob paths (otherwise an export could clobber a
blob, in the source as in the model). -/
theorem c8_export (cfg : Config) (st : St) (exportDir : Option (List Nat)) :
    (st.db.rows = [] →
      NotesManager.export_notes cfg st exportDir = (.ok (0, 0), st)) ∧
    (∀ r0 : NoteRecord, r0 ∈ st.db.rows →
      isErr (NotesManager.read_note cfg st r0.id) = true →
      (∀ r ∈ st.db.rows, r ≠ r0 →
        isErr (NotesManager.read_note cfg st r.id) = false) →
      st.db.rows.count r0 = 1 →
      (∀ r1 ∈ st.db.rows, ∀ r2 ∈ st.db.rows,
        pathJoin (resolveExportDir cfg exportDir)
            (sanitize_filename r1.title ++ [46] ++ cfg.defaultExtension)
          ≠ pathJoin cfg.notesDir r2.filename) →
      (NotesManager.export_notes cfg st exportDir).1
          = .ok (st.db.rows.length - 1, st.db.rows.length) ∧
      (NotesManager.export_notes cfg st exportDir).2.db = st.db) := by
  constructor
  · intro h
    unfold NotesManager.export_notes NotesManager.list_notes Database.get_all_notes
    rw [h]
    rfl
  · intro r0 hmem hfail hgood hcount hdisj
    have hiff : ∀ r ∈ st.db.rows,
        (isErr (NotesManager.read_note cfg st r.id) = true ↔ (r == r0) = true) := by
      intro r hr
      constructor
      · intro hE
        by_cases hrr : r = r0
        · rw [beq_iff_eq]
          exact hrr
        · rw [hgood r hr hrr] at hE
          exact absurd hE (by simp)
      · intro hb
        rw [beq_iff_eq] at hb
        subst hb
        exact hfail
    have h1 : st.db.rows.countP
        (fun r => isErr (NotesManager.read_note cfg st r.id)) = 1 := by
      rw [List.countP_congr hiff, ← List.count_eq_countP, hcount]
    have h2 := countP_not_add
      (fun r => isErr (NotesManager.read_note cfg st r.id)) st.db.rows
    have hcnt : st.db.rows.countP
        (fun r => !isErr (NotesManager.read_note cfg st r.id))
        = st.db.rows.length - 1 := by
      omega
    have hne : ¬(st.db.rows.length = 0) := by
      intro h0
      rw [List.length_eq_zero] at h0
      rw [h0] at hmem
      exact absurd hmem (by simp)
    have hf := export_fold cfg st (resolveExportDir cfg exportDir) st.db.rows 0 st rfl
      (fun r _ => rfl) (fun r hr => hr) hdisj
    unfold NotesManager.export_notes NotesManager.list_notes Database.get_all_notes
    rw [if_neg hne]
    dsimp only
    constructor
    · rw [hf.1, hcnt]
      simp
    · exact hf.2

theorem c8_witness :
    (NotesManager.export_notes cfg0 stExp (some (str "/exp"))).1 = .ok (1, 2) ∧
    (NotesManager.export_notes cfg0 stExp (some (str "/exp"))).2.db = stExp.db ∧
    NotesManager.export_notes cfg0 ⟨⟨[], 1⟩, []⟩ (some (str "/exp"))
      = (.ok (0, 0), ⟨⟨[], 1⟩, []⟩) := by
  have h := c8_export cfg0 stExp (some (str "/exp"))
  have hempty := c8_export cfg0 ⟨⟨[], 1⟩, []⟩ (some (str "/exp"))
  obtain ⟨ha, hb⟩ := h.2 ⟨2, str "b", str "bmd", 0, 0⟩ (by decide) (by decide)
    (by decide) (by decide) (by decide)
  exact ⟨ha, hb, hempty.1 rfl⟩

end Noters

